import Mathlib

set_option maxRecDepth 100000

/-!
Verification development for the `dag-ucan` library (UCAN 0.9.x generation):
a shallow embedding of the library's current modules — `lib.js`, `parser.js`,
`schema.js`, `signature.js`, `formatter.js`, `view.js`, `did.js` and
`codec/cbor.js` — together with theorems settling the specification claims.

Modelling conventions:
* byte strings (`Uint8Array`) are `List Nat`, each entry a byte value;
* JavaScript exceptions are `Except Err`;
* JavaScript strings are Lean `String` (sequences of Unicode scalar values);
* external multiformats primitives (varint, base64url, base58btc, base32,
  DAG-JSON, DAG-CBOR) are modelled executably after their specifications.
-/

/-- Error model: `ParseError` (a `TypeError` subclass), `RangeError`, and
plain `TypeError`, each carrying a message. -/
inductive Err where
  | parse (msg : String)
  | range (msg : String)
  | typed (msg : String)
deriving Repr, DecidableEq

abbrev Bytes := List Nat

/-! ## multiformats varint (unsigned LEB128) -/

namespace Varint

/-- Fuelled worker for LEB128 encoding: low 7 bits first, continuation bit
`0x80` on all but the last byte. -/
def encodeAux : Nat → Nat → List Nat
  | 0, _ => []
  | fuel + 1, n =>
    if n < 0x80 then [n] else (n % 0x80 + 0x80) :: encodeAux fuel (n / 0x80)

/-- `varint.encodeTo` / `varint.encode`: LEB128 encoding of `n`. -/
def encode (n : Nat) : List Nat := encodeAux (n + 1) n

/-- `varint.encodingLength`. -/
def encodingLength (n : Nat) : Nat := (encode n).length

/-- `varint.decode`: returns the decoded value and the number of bytes read,
or `none` where the JavaScript implementation throws a `RangeError`. -/
def decode : List Nat → Option (Nat × Nat)
  | [] => none
  | b :: rest =>
    if b < 0x80 then some (b, 1)
    else
      match decode rest with
      | some (v, k) => some (v * 0x80 + (b - 0x80), k + 1)
      | none => none

theorem decode_encodeAux (fuel n : Nat) (h : n < fuel) (rest : List Nat) :
    decode (encodeAux fuel n ++ rest) = some (n, (encodeAux fuel n).length) := by
  induction fuel generalizing n with
  | zero => omega
  | succ f ih =>
    simp only [encodeAux]
    by_cases hn : n < 0x80
    · simp [hn, decode]
    · have hdiv : n / 0x80 < f :=
        lt_of_lt_of_le (Nat.div_lt_self (by omega) (by omega)) (by omega)
      simp only [hn, if_false, List.cons_append, decode]
      have hb : ¬ n % 0x80 + 0x80 < 0x80 := by omega
      simp only [hb, if_false, ih (n / 0x80) hdiv, List.length_cons, Option.some.injEq,
        Prod.mk.injEq]
      exact ⟨by omega, trivial⟩

/-- LEB128 round-trip: decoding an encoded value (with any suffix) recovers
the value and its encoded length. -/
theorem roundTrip (n : Nat) (rest : List Nat) :
    decode (encode n ++ rest) = some (n, encodingLength n) :=
  decode_encodeAux (n + 1) n (Nat.lt_succ_self n) rest

end Varint

/-! ## UTF-8 (TextEncoder / TextDecoder) -/

namespace UTF8

/-- UTF-8 encoding of a single Unicode scalar value. -/
def encodeChar (n : Nat) : List Nat :=
  if n < 0x80 then [n]
  else if n < 0x800 then [0xC0 + n / 64, 0x80 + n % 64]
  else if n < 0x10000 then
    [0xE0 + n / 4096, 0x80 + n / 64 % 64, 0x80 + n % 64]
  else [0xF0 + n / 262144, 0x80 + n / 4096 % 64, 0x80 + n / 64 % 64, 0x80 + n % 64]

/-- `TextEncoder.encode` over the scalar values of a string. -/
def encodeList : List Char → List Nat
  | [] => []
  | c :: cs => encodeChar c.toNat ++ encodeList cs

/-- `UTF8.encode` from `utf8.js`. -/
def encode (s : String) : List Nat := encodeList s.data

/-- U+FFFD, the replacement character emitted by `TextDecoder` for
malformed input. -/
def repl : Char := Char.ofNat 0xFFFD

/-- Is `b` a UTF-8 continuation byte? -/
def isCont (b : Nat) : Bool := 0x80 ≤ b && b < 0xC0

/-- Decode one UTF-8 sequence from the front of the list, two-byte lead.
Returns the produced character together with the remaining input. -/
def step2 (b : Nat) (rest : List Nat) : Char × List Nat :=
  match rest with
  | [] => (repl, [])
  | b1 :: rest' =>
    if isCont b1 && decide (0x80 ≤ (b - 0xC0) * 64 + (b1 - 0x80)) then
      (Char.ofNat ((b - 0xC0) * 64 + (b1 - 0x80)), rest')
    else (repl, rest')

/-- Decode one UTF-8 sequence, three-byte lead. -/
def step3 (b : Nat) (rest : List Nat) : Char × List Nat :=
  match rest with
  | b1 :: b2 :: rest' =>
    if isCont b1 && isCont b2 &&
        decide (0x800 ≤ (b - 0xE0) * 4096 + (b1 - 0x80) * 64 + (b2 - 0x80)) &&
        ! decide (0xD800 ≤ (b - 0xE0) * 4096 + (b1 - 0x80) * 64 + (b2 - 0x80) ∧
          (b - 0xE0) * 4096 + (b1 - 0x80) * 64 + (b2 - 0x80) < 0xE000) then
      (Char.ofNat ((b - 0xE0) * 4096 + (b1 - 0x80) * 64 + (b2 - 0x80)), rest')
    else (repl, rest')
  | rest => (repl, rest.tail)

/-- Decode one UTF-8 sequence, four-byte lead. -/
def step4 (b : Nat) (rest : List Nat) : Char × List Nat :=
  match rest with
  | b1 :: b2 :: b3 :: rest' =>
    if isCont b1 && isCont b2 && isCont b3 &&
        decide (0x10000 ≤
          (b - 0xF0) * 262144 + (b1 - 0x80) * 4096 + (b2 - 0x80) * 64 + (b3 - 0x80)) &&
        decide ((b - 0xF0) * 262144 + (b1 - 0x80) * 4096 + (b2 - 0x80) * 64 + (b3 - 0x80)
          < 0x110000) then
      (Char.ofNat ((b - 0xF0) * 262144 + (b1 - 0x80) * 4096 + (b2 - 0x80) * 64 + (b3 - 0x80)),
        rest')
    else (repl, rest')
  | rest => (repl, rest.tail)

/-- Decode one UTF-8 sequence from the front of the input;
`none` only on empty input. -/
def step : List Nat → Option (Char × List Nat)
  | [] => none
  | b :: rest =>
    if b < 0x80 then some (Char.ofNat b, rest)
    else if b < 0xC0 then some (repl, rest)
    else if b < 0xE0 then some (step2 b rest)
    else if b < 0xF0 then some (step3 b rest)
    else if b < 0xF8 then some (step4 b rest)
    else some (repl, rest)

/-- Fuelled decoding loop; `fuel` bounds the number of produced characters. -/
def decodeAux : Nat → List Nat → List Char
  | 0, _ => []
  | fuel + 1, l =>
    match step l with
    | none => []
    | some (c, rest) => c :: decodeAux fuel rest

/-- `TextDecoder.decode` (non-fatal mode): malformed sequences yield U+FFFD.
The precise resynchronisation point of `TextDecoder` after a malformed
sequence is not modelled (the lookahead bytes are consumed); no claim
exercises malformed UTF-8. -/
def decodeList (l : List Nat) : List Char := decodeAux l.length l

/-- `UTF8.decode` from `utf8.js`. -/
def decode (b : List Nat) : String := ⟨decodeList b⟩

theorem step2_snd_length (b : Nat) (rest : List Nat) :
    (step2 b rest).2.length ≤ rest.length := by
  cases rest with
  | nil => simp [step2]
  | cons b1 r =>
    simp only [step2]
    split <;> simp

theorem step3_snd_length (b : Nat) (rest : List Nat) :
    (step3 b rest).2.length ≤ rest.length := by
  match rest with
  | [] => simp [step3]
  | [b1] => simp [step3, List.tail]
  | b1 :: b2 :: r =>
    simp only [step3]
    split <;> simp <;> omega

theorem step4_snd_length (b : Nat) (rest : List Nat) :
    (step4 b rest).2.length ≤ rest.length := by
  match rest with
  | [] => simp [step4]
  | [b1] => simp [step4, List.tail]
  | [b1, b2] => simp [step4, List.tail]
  | b1 :: b2 :: b3 :: r =>
    simp only [step4]
    split <;> simp <;> omega

theorem step_length {l rest : List Nat} {c : Char} (h : step l = some (c, rest)) :
    rest.length < l.length := by
  cases l with
  | nil => simp [step] at h
  | cons b l' =>
    simp only [step, List.length_cons] at h ⊢
    split_ifs at h
    · rw [Option.some.injEq, Prod.mk.injEq] at h
      have hlen := congrArg List.length h.2
      omega
    · rw [Option.some.injEq, Prod.mk.injEq] at h
      have hlen := congrArg List.length h.2
      omega
    · rw [Option.some.injEq] at h
      have h2 := congrArg Prod.snd h
      have h3 := step2_snd_length b l'
      rw [h2] at h3
      simp only [List.length_cons] at h3
      omega
    · rw [Option.some.injEq] at h
      have h2 := congrArg Prod.snd h
      have h3 := step3_snd_length b l'
      rw [h2] at h3
      simp only [List.length_cons] at h3
      omega
    · rw [Option.some.injEq] at h
      have h2 := congrArg Prod.snd h
      have h3 := step4_snd_length b l'
      rw [h2] at h3
      simp only [List.length_cons] at h3
      omega
    · rw [Option.some.injEq, Prod.mk.injEq] at h
      have hlen := congrArg List.length h.2
      omega

theorem decodeAux_fuel {fuel₁ fuel₂ : Nat} (l : List Nat)
    (h₁ : l.length ≤ fuel₁) (h₂ : l.length ≤ fuel₂) :
    decodeAux fuel₁ l = decodeAux fuel₂ l := by
  induction fuel₁ generalizing fuel₂ l with
  | zero =>
    have hnil : l = [] := List.length_eq_zero.mp (by omega)
    subst hnil
    cases fuel₂ <;> simp [decodeAux, step]
  | succ f ih =>
    cases fuel₂ with
    | zero =>
      have hnil : l = [] := List.length_eq_zero.mp (by omega)
      subst hnil
      simp [decodeAux, step]
    | succ g =>
      simp only [decodeAux]
      cases hs : step l with
      | none => rfl
      | some p =>
        obtain ⟨c, rest⟩ := p
        have hlt := step_length hs
        show c :: decodeAux f rest = c :: decodeAux g rest
        rw [@ih g rest (by omega) (by omega)]

theorem decodeList_step {l rest : List Nat} {c : Char} (h : step l = some (c, rest)) :
    decodeList l = c :: decodeList rest := by
  have hlen := step_length h
  cases l with
  | nil => simp [step] at h
  | cons b l' =>
    have hl : rest.length ≤ l'.length := by
      simp only [List.length_cons] at hlen
      omega
    simp only [decodeList, List.length_cons, decodeAux, h]
    rw [decodeAux_fuel rest (by omega) (Nat.le_refl _)]

theorem step_encodeChar (c : Char) (rest : List Nat) :
    step (encodeChar c.toNat ++ rest) = some (c, rest) := by
  have hval : c.toNat < 0xD800 ∨ (0xDFFF < c.toNat ∧ c.toNat < 0x110000) := by
    have hv := c.valid
    rcases hv with h | ⟨h₁, h₂⟩
    · exact Or.inl (by exact_mod_cast h)
    · exact Or.inr ⟨by exact_mod_cast h₁, by exact_mod_cast h₂⟩
  have hofNat : Char.ofNat c.toNat = c := Char.ofNat_toNat c
  set n := c.toNat with hn
  by_cases h1 : n < 0x80
  · simp only [encodeChar, h1, if_true, List.cons_append, List.nil_append, step, hofNat]
  · by_cases h2 : n < 0x800
    · have e1 : ¬ (0xC0 + n / 64 < 0x80) := by omega
      have e2 : ¬ (0xC0 + n / 64 < 0xC0) := by omega
      have e3 : 0xC0 + n / 64 < 0xE0 := by omega
      have hcp : (0xC0 + n / 64 - 0xC0) * 64 + (0x80 + n % 64 - 0x80) = n := by omega
      simp only [encodeChar, h1, if_false, h2, if_true, List.cons_append, List.nil_append,
        step, e1, e2, e3, step2, hcp, hofNat]
      have hcond : (isCont (0x80 + n % 64) && decide (0x80 ≤ n)) = true := by
        simp only [isCont, Bool.and_eq_true, decide_eq_true_eq]
        omega
      simp [hcond]
    · by_cases h3 : n < 0x10000
      · have e1 : ¬ (0xE0 + n / 4096 < 0x80) := by omega
        have e2 : ¬ (0xE0 + n / 4096 < 0xC0) := by omega
        have e3 : ¬ (0xE0 + n / 4096 < 0xE0) := by omega
        have e4 : 0xE0 + n / 4096 < 0xF0 := by omega
        have hcp : (0xE0 + n / 4096 - 0xE0) * 4096 + (0x80 + n / 64 % 64 - 0x80) * 64 +
            (0x80 + n % 64 - 0x80) = n := by omega
        simp only [encodeChar, h1, if_false, h2, h3, if_true, List.cons_append,
          List.nil_append, step, e1, e2, e3, e4, step3, hcp, hofNat]
        have hcond : (isCont (0x80 + n / 64 % 64) && isCont (0x80 + n % 64) &&
            decide (0x800 ≤ n) && ! decide (0xD800 ≤ n ∧ n < 0xE000)) = true := by
          simp only [isCont, Bool.and_eq_true, Bool.not_eq_true', decide_eq_true_eq,
            decide_eq_false_iff_not]
          omega
        rw [if_pos hcond]
      · have e1 : ¬ (0xF0 + n / 262144 < 0x80) := by omega
        have e2 : ¬ (0xF0 + n / 262144 < 0xC0) := by omega
        have e3 : ¬ (0xF0 + n / 262144 < 0xE0) := by omega
        have e4 : ¬ (0xF0 + n / 262144 < 0xF0) := by omega
        have e5 : 0xF0 + n / 262144 < 0xF8 := by omega
        have hcp : (0xF0 + n / 262144 - 0xF0) * 262144 + (0x80 + n / 4096 % 64 - 0x80) * 4096 +
            (0x80 + n / 64 % 64 - 0x80) * 64 + (0x80 + n % 64 - 0x80) = n := by omega
        simp only [encodeChar, h1, h2, h3, if_false, List.cons_append, List.nil_append,
          step, e1, e2, e3, e4, e5, step4, hcp, hofNat]
        have hcond : (isCont (0x80 + n / 4096 % 64) && isCont (0x80 + n / 64 % 64) &&
            isCont (0x80 + n % 64) &&
            decide (0x10000 ≤ n) && decide (n < 0x110000)) = true := by
          simp only [isCont, Bool.and_eq_true, decide_eq_true_eq]
          omega
        simp [hcond]

theorem decodeList_encodeChar (c : Char) (rest : List Nat) :
    decodeList (encodeChar c.toNat ++ rest) = c :: decodeList rest :=
  decodeList_step (step_encodeChar c rest)

theorem decodeList_encodeList (cs : List Char) :
    decodeList (encodeList cs) = cs := by
  induction cs with
  | nil => rfl
  | cons c cs ih =>
    simp only [encodeList, decodeList_encodeChar, ih]

/-- UTF-8 round-trip: `TextDecoder.decode (TextEncoder.encode s) = s`. -/
theorem decodeEncode (s : String) : decode (encode s) = s := by
  cases s with
  | mk data => simp [decode, encode, decodeList_encodeList]

end UTF8

/-! ## RFC 4648 base64url (multiformats `base64url`, no padding) -/

namespace Base64Url

/-- Value of a base64url alphabet character, `none` outside the alphabet. -/
def charVal (c : Char) : Option Nat :=
  if 'A' ≤ c ∧ c ≤ 'Z' then some (c.toNat - 65)
  else if 'a' ≤ c ∧ c ≤ 'z' then some (c.toNat - 97 + 26)
  else if '0' ≤ c ∧ c ≤ '9' then some (c.toNat - 48 + 52)
  else if c = '-' then some 62
  else if c = '_' then some 63
  else none

/-- Character for a 6-bit value. -/
def valChar (v : Nat) : Char :=
  if v < 26 then Char.ofNat (65 + v)
  else if v < 52 then Char.ofNat (97 + (v - 26))
  else if v < 62 then Char.ofNat (48 + (v - 52))
  else if v = 62 then '-'
  else '_'

/-- `base64url.baseEncode`: unpadded RFC 4648 encoding. -/
def encodeList : List Nat → List Char
  | [] => []
  | [b1] => [valChar (b1 / 4), valChar (b1 % 4 * 16)]
  | [b1, b2] => [valChar (b1 / 4), valChar (b1 % 4 * 16 + b2 / 16), valChar (b2 % 16 * 4)]
  | b1 :: b2 :: b3 :: rest =>
    valChar (b1 / 4) :: valChar (b1 % 4 * 16 + b2 / 16) ::
      valChar (b2 % 16 * 4 + b3 / 64) :: valChar (b3 % 64) :: encodeList rest

def baseEncode (b : List Nat) : String := ⟨encodeList b⟩

/-- `base64url.baseDecode` worker: rejects stray characters, a leftover
single character, and nonzero trailing bits, as the multiformats RFC 4648
decoder does. -/
def decodeList : List Char → Option (List Nat)
  | [] => some []
  | [_] => none
  | [c1, c2] => do
    let v1 ← charVal c1
    let v2 ← charVal c2
    if v2 % 16 = 0 then some [v1 * 4 + v2 / 16] else none
  | [c1, c2, c3] => do
    let v1 ← charVal c1
    let v2 ← charVal c2
    let v3 ← charVal c3
    if v3 % 4 = 0 then some [v1 * 4 + v2 / 16, v2 % 16 * 16 + v3 / 4] else none
  | c1 :: c2 :: c3 :: c4 :: rest => do
    let v1 ← charVal c1
    let v2 ← charVal c2
    let v3 ← charVal c3
    let v4 ← charVal c4
    let tl ← decodeList rest
    some ((v1 * 4 + v2 / 16) :: (v2 % 16 * 16 + v3 / 4) :: (v3 % 4 * 64 + v4) :: tl)

def baseDecode (s : String) : Option (List Nat) := decodeList s.data

end Base64Url

/-! ## RFC 4648 base64 (standard alphabet, used by dag-json byte encoding) -/

namespace Base64Std

def valChar (v : Nat) : Char :=
  if v < 26 then Char.ofNat (65 + v)
  else if v < 52 then Char.ofNat (97 + (v - 26))
  else if v < 62 then Char.ofNat (48 + (v - 52))
  else if v = 62 then '+'
  else '/'

def encodeList : List Nat → List Char
  | [] => []
  | [b1] => [valChar (b1 / 4), valChar (b1 % 4 * 16)]
  | [b1, b2] => [valChar (b1 / 4), valChar (b1 % 4 * 16 + b2 / 16), valChar (b2 % 16 * 4)]
  | b1 :: b2 :: b3 :: rest =>
    valChar (b1 / 4) :: valChar (b1 % 4 * 16 + b2 / 16) ::
      valChar (b2 % 16 * 4 + b3 / 64) :: valChar (b3 % 64) :: encodeList rest

def baseEncode (b : List Nat) : String := ⟨encodeList b⟩

end Base64Std

/-! ## base32 lower, no padding (multibase prefix `b`, used in CIDv1 strings) -/

namespace Base32

def charVal (c : Char) : Option Nat :=
  if 'a' ≤ c ∧ c ≤ 'z' then some (c.toNat - 97)
  else if '2' ≤ c ∧ c ≤ '7' then some (c.toNat - 50 + 26)
  else none

def valChar (v : Nat) : Char :=
  if v < 26 then Char.ofNat (97 + v) else Char.ofNat (50 + (v - 26))

/-- Encode 5-byte groups to 8 characters; tails per RFC 4648, no padding. -/
def encodeList : List Nat → List Char
  | [] => []
  | [b1] => [valChar (b1 / 8), valChar (b1 % 8 * 4)]
  | [b1, b2] =>
    [valChar (b1 / 8), valChar (b1 % 8 * 4 + b2 / 64), valChar (b2 / 2 % 32),
      valChar (b2 % 2 * 16)]
  | [b1, b2, b3] =>
    [valChar (b1 / 8), valChar (b1 % 8 * 4 + b2 / 64), valChar (b2 / 2 % 32),
      valChar (b2 % 2 * 16 + b3 / 16), valChar (b3 % 16 * 2)]
  | [b1, b2, b3, b4] =>
    [valChar (b1 / 8), valChar (b1 % 8 * 4 + b2 / 64), valChar (b2 / 2 % 32),
      valChar (b2 % 2 * 16 + b3 / 16), valChar (b3 % 16 * 2 + b4 / 128),
      valChar (b4 / 4 % 32), valChar (b4 % 4 * 8)]
  | b1 :: b2 :: b3 :: b4 :: b5 :: rest =>
    valChar (b1 / 8) :: valChar (b1 % 8 * 4 + b2 / 64) :: valChar (b2 / 2 % 32) ::
      valChar (b2 % 2 * 16 + b3 / 16) :: valChar (b3 % 16 * 2 + b4 / 128) ::
      valChar (b4 / 4 % 32) :: valChar (b4 % 4 * 8 + b5 / 32) :: valChar (b5 % 32) ::
      encodeList rest

def baseEncode (b : List Nat) : String := ⟨encodeList b⟩

/-- Decode 8-character groups to 5 bytes; tails per RFC 4648. -/
def decodeList : List Char → Option (List Nat)
  | [] => some []
  | [c1, c2] => do
    let v1 ← charVal c1
    let v2 ← charVal c2
    if v2 % 4 = 0 then some [v1 * 8 + v2 / 4] else none
  | [c1, c2, c3, c4] => do
    let v1 ← charVal c1
    let v2 ← charVal c2
    let v3 ← charVal c3
    let v4 ← charVal c4
    if v4 % 16 = 0 then some [v1 * 8 + v2 / 4, v2 % 4 * 64 + v3 * 2 + v4 / 16] else none
  | [c1, c2, c3, c4, c5] => do
    let v1 ← charVal c1
    let v2 ← charVal c2
    let v3 ← charVal c3
    let v4 ← charVal c4
    let v5 ← charVal c5
    if v5 % 2 = 0 then
      some [v1 * 8 + v2 / 4, v2 % 4 * 64 + v3 * 2 + v4 / 16, v4 % 16 * 16 + v5 / 2]
    else none
  | [c1, c2, c3, c4, c5, c6, c7] => do
    let v1 ← charVal c1
    let v2 ← charVal c2
    let v3 ← charVal c3
    let v4 ← charVal c4
    let v5 ← charVal c5
    let v6 ← charVal c6
    let v7 ← charVal c7
    if v7 % 8 = 0 then
      some [v1 * 8 + v2 / 4, v2 % 4 * 64 + v3 * 2 + v4 / 16, v4 % 16 * 16 + v5 / 2,
        v5 % 2 * 128 + v6 * 4 + v7 / 8]
    else none
  | c1 :: c2 :: c3 :: c4 :: c5 :: c6 :: c7 :: c8 :: rest => do
    let v1 ← charVal c1
    let v2 ← charVal c2
    let v3 ← charVal c3
    let v4 ← charVal c4
    let v5 ← charVal c5
    let v6 ← charVal c6
    let v7 ← charVal c7
    let v8 ← charVal c8
    let tl ← decodeList rest
    some ((v1 * 8 + v2 / 4) :: (v2 % 4 * 64 + v3 * 2 + v4 / 16) :: (v4 % 16 * 16 + v5 / 2) ::
      (v5 % 2 * 128 + v6 * 4 + v7 / 8) :: (v7 % 8 * 32 + v8) :: tl)
  | _ => none

def baseDecode (s : String) : Option (List Nat) := decodeList s.data

end Base32

/-! ## base58btc (multibase prefix `z`) -/

namespace Base58

def alphabet : List Char :=
  "123456789ABCDEFGHJKLMNPQRSTUVWXYZabcdefghijkmnopqrstuvwxyz".data

def charVal (c : Char) : Option Nat := alphabet.indexOf? c

/-- Interpret bytes as a big-endian natural number. -/
def bytesToNat (b : List Nat) : Nat := b.foldl (fun acc x => acc * 256 + x) 0

/-- Little-endian base-58 digits of `n` (fuelled). -/
def natDigits : Nat → Nat → List Nat
  | 0, _ => []
  | _, 0 => []
  | fuel + 1, n => n % 58 :: natDigits fuel (n / 58)

/-- Count of leading zero bytes / `1` characters. -/
def leadCount {α : Type} [DecidableEq α] (z : α) : List α → Nat
  | [] => 0
  | x :: r => if x = z then leadCount z r + 1 else 0

/-- base58btc encoding with the multibase prefix `z`
(`base58btc.encode` from multiformats). -/
def encode (b : List Nat) : String :=
  let zeros := List.replicate (leadCount 0 b) '1'
  let digits := (natDigits (8 * b.length + 1) (bytesToNat b)).reverse.map
    (fun d => alphabet.getD d '1')
  ⟨'z' :: (zeros ++ digits)⟩

/-- Accumulate base-58 digit values into a natural number. -/
def digitsToNat (l : List Nat) : Nat := l.foldl (fun acc d => acc * 58 + d) 0

/-- Big-endian bytes of `n` (fuelled, little-endian worker then reversed). -/
def natBytesLE : Nat → Nat → List Nat
  | 0, _ => []
  | _, 0 => []
  | fuel + 1, n => n % 256 :: natBytesLE fuel (n / 256)

def mapCharVals : List Char → Option (List Nat)
  | [] => some []
  | c :: r => do
    let v ← charVal c
    let tl ← mapCharVals r
    some (v :: tl)

/-- `base58btc.decode`: requires the `z` multibase prefix. -/
def decode (s : String) : Option (List Nat) :=
  match s.data with
  | 'z' :: rest => do
    let vals ← mapCharVals rest
    let n := digitsToNat vals
    let ones := leadCount '1' rest
    some (List.replicate ones 0 ++ (natBytesLE (8 * rest.length + 1) n).reverse)
  | _ => none

end Base58

/-! ## IPLD data model: CIDs and decoded values -/

/-- A multihash: hash function code, digest size, digest bytes. -/
structure Multihash where
  code : Nat
  size : Nat
  digest : List Nat
deriving Repr, DecidableEq

/-- A CID (`multiformats` `CID` / `Link`). -/
structure Cid where
  version : Nat
  codec : Nat
  mh : Multihash
deriving Repr, DecidableEq

/-- `identity.digest`: the identity multihash (code 0x00). -/
def identityDigest (b : List Nat) : Multihash := ⟨0, b.length, b⟩

/-- CIDv1 binary form: version varint, codec varint, multihash. -/
def Cid.toBytes (c : Cid) : List Nat :=
  Varint.encode c.version ++ Varint.encode c.codec ++
    Varint.encode c.mh.code ++ Varint.encode c.mh.size ++ c.mh.digest

/-- `CID.toString` for v1: multibase base32 (`b` prefix) of the binary form.
CIDv0 strings are not modelled (no claim exercises them). -/
def Cid.toText (c : Cid) : String := ⟨'b' :: (Base32.baseEncode c.toBytes).data⟩

/-- Parse the binary form of a CIDv1. -/
def cidFromBytes (b : List Nat) : Option Cid := do
  let (v, k1) ← Varint.decode b
  if v ≠ 1 then none else
  let r1 := b.drop k1
  let (codec, k2) ← Varint.decode r1
  let r2 := r1.drop k2
  let (hcode, k3) ← Varint.decode r2
  let r3 := r2.drop k3
  let (hsize, k4) ← Varint.decode r3
  let digest := r3.drop k4
  if digest.length = hsize then some ⟨v, codec, ⟨hcode, hsize, digest⟩⟩ else none

/-- `CID.parse` / `Link.parse`, restricted to multibase `b` (base32 CIDv1);
other multibases (e.g. CIDv0 base58) are not modelled — parsing them fails,
which in the only caller (`parseProof`) falls back to the inlined-proof CID
exactly as an unparseable string would. -/
def cidParse (s : String) : Option Cid :=
  match s.data with
  | 'b' :: rest => do
    let bytes ← Base32.decodeList rest
    cidFromBytes bytes
  | _ => none

/-- Decoded IPLD data (the result of dag-json / dag-cbor decoding, and the
payload of JavaScript objects flowing through the readers). -/
inductive Val where
  | null
  | bool (b : Bool)
  | num (n : Int)
  | str (s : String)
  | bytes (b : List Nat)
  | arr (l : List Val)
  | obj (l : List (String × Val))
  | link (c : Cid)
deriving Repr

/-- Property lookup on a JavaScript value: `v[k]`, `none` when absent
(`undefined`). Only plain objects carry named properties here. -/
def Val.get : Val → String → Option Val
  | .obj l, k => l.lookup k
  | _, _ => none

/-! ## dag-json encoding (the subset the formatter emits) -/

namespace Json

/-- Escape one character per JSON string rules. -/
def escChar (c : Char) : List Char :=
  if c = '"' then ['\\', '"']
  else if c = '\\' then ['\\', '\\']
  else if c = Char.ofNat 0x08 then ['\\', 'b']
  else if c = Char.ofNat 0x0C then ['\\', 'f']
  else if c = '\n' then ['\\', 'n']
  else if c = Char.ofNat 0x0D then ['\\', 'r']
  else if c = '\t' then ['\\', 't']
  else if c.toNat < 0x20 then
    ['\\', 'u', '0', '0', Char.ofNat (if c.toNat / 16 < 10 then 48 + c.toNat / 16 else 87 + c.toNat / 16),
      Char.ofNat (if c.toNat % 16 < 10 then 48 + c.toNat % 16 else 87 + c.toNat % 16)]
  else [c]

def escapeList : List Char → List Char
  | [] => []
  | c :: r => escChar c ++ escapeList r

def quote (s : String) : String := ⟨'"' :: escapeList s.data ++ ['"']⟩

/-- The two brace characters, written via code points. -/
def lbrace : String := ⟨[Char.ofNat 0x7B]⟩

def rbrace : String := ⟨[Char.ofNat 0x7D]⟩

mutual

/-- `json.encode` of `@ipld/dag-json` on the value subset this library
emits: no insignificant whitespace; object keys in insertion order; bytes
and links use the dag-json `"/"` conventions. -/
def encodeVal : Val → String
  | .null => "null"
  | .bool true => "true"
  | .bool false => "false"
  | .num n => toString n
  | .str s => quote s
  | .bytes b =>
    lbrace ++ quote "/" ++ ":" ++ lbrace ++ quote "bytes" ++ ":" ++
      quote (Base64Std.baseEncode b) ++ rbrace ++ rbrace
  | .arr l => "[" ++ String.intercalate "," (encodeArr l) ++ "]"
  | .obj l => lbrace ++ String.intercalate "," (encodeObj l) ++ rbrace
  | .link c => lbrace ++ quote "/" ++ ":" ++ quote c.toText ++ rbrace

def encodeArr : List Val → List String
  | [] => []
  | v :: r => encodeVal v :: encodeArr r

def encodeObj : List (String × Val) → List String
  | [] => []
  | (k, v) :: r => (quote k ++ ":" ++ encodeVal v) :: encodeObj r

end

/-- `json.encode` produces bytes (UTF-8 of the rendered text). -/
def encode (v : Val) : List Nat := UTF8.encode (encodeVal v)

end Json

namespace Json

def isWs (c : Char) : Bool := c = ' ' || c = '\t' || c = '\n' || c = Char.ofNat 0x0D

def skipWs : List Char → List Char
  | [] => []
  | c :: r => if isWs c then skipWs r else c :: r

def hexVal (c : Char) : Option Nat :=
  if '0' ≤ c ∧ c ≤ '9' then some (c.toNat - 48)
  else if 'a' ≤ c ∧ c ≤ 'f' then some (c.toNat - 87)
  else if 'A' ≤ c ∧ c ≤ 'F' then some (c.toNat - 55)
  else none

def hex4 (h1 h2 h3 h4 : Char) : Option Nat := do
  let v1 ← hexVal h1
  let v2 ← hexVal h2
  let v3 ← hexVal h3
  let v4 ← hexVal h4
  some (v1 * 4096 + v2 * 256 + v3 * 16 + v4)

/-- JSON string body parser (after the opening quote): returns the content
and the input after the closing quote. Lone surrogate escapes fail (a Lean
`Char` cannot carry them; no fixture contains them). -/
def strLoop : List Char → Option (List Char × List Char)
  | [] => none
  | c :: r =>
    if c = '"' then some ([], r)
    else if c = '\\' then
      match r with
      | [] => none
      | e :: r' =>
        if e = '"' then (fun p => (('"' : Char) :: p.1, p.2)) <$> strLoop r'
        else if e = '\\' then (fun p => (('\\' : Char) :: p.1, p.2)) <$> strLoop r'
        else if e = '/' then (fun p => (('/' : Char) :: p.1, p.2)) <$> strLoop r'
        else if e = 'b' then (fun p => (Char.ofNat 0x08 :: p.1, p.2)) <$> strLoop r'
        else if e = 'f' then (fun p => (Char.ofNat 0x0C :: p.1, p.2)) <$> strLoop r'
        else if e = 'n' then (fun p => (('\n' : Char) :: p.1, p.2)) <$> strLoop r'
        else if e = 'r' then (fun p => (Char.ofNat 0x0D :: p.1, p.2)) <$> strLoop r'
        else if e = 't' then (fun p => (('\t' : Char) :: p.1, p.2)) <$> strLoop r'
        else if e = 'u' then
          match r' with
          | h1 :: h2 :: h3 :: h4 :: r'' =>
            match hex4 h1 h2 h3 h4 with
            | none => none
            | some v =>
              if v < 0xD800 ∨ 0xE000 ≤ v then
                (fun p => (Char.ofNat v :: p.1, p.2)) <$> strLoop r''
              else if v < 0xDC00 then
                match r'' with
                | '\\' :: 'u' :: g1 :: g2 :: g3 :: g4 :: r3 =>
                  match hex4 g1 g2 g3 g4 with
                  | none => none
                  | some w =>
                    if 0xDC00 ≤ w ∧ w < 0xE000 then
                      (fun p =>
                        (Char.ofNat (0x10000 + (v - 0xD800) * 0x400 + (w - 0xDC00)) :: p.1,
                          p.2)) <$> strLoop r3
                    else none
                | _ => none
              else none
          | _ => none
        else none
    else (fun p => (c :: p.1, p.2)) <$> strLoop r

def isDigit (c : Char) : Bool := '0' ≤ c && c ≤ '9'

def takeDigits : List Char → (List Nat × List Char)
  | [] => ([], [])
  | c :: r =>
    if isDigit c then
      let (ds, rest) := takeDigits r
      ((c.toNat - 48) :: ds, rest)
    else ([], c :: r)

def digitsVal (l : List Nat) : Nat := l.foldl (fun acc d => acc * 10 + d) 0

/-- JSON number parser, integers only: fractional or exponent parts make the
parse fail. (dag-json as used here never carries non-integer numbers; the
payload readers reject them anyway via `Number.isInteger`.) -/
def parseNum (cs : List Char) : Option (Int × List Char) :=
  match cs with
  | '-' :: r =>
    match takeDigits r with
    | ([], _) => none
    | (ds, rest) =>
      match rest with
      | '.' :: _ => none
      | 'e' :: _ => none
      | 'E' :: _ => none
      | _ => some (-(digitsVal ds : Int), rest)
  | r =>
    match takeDigits r with
    | ([], _) => none
    | (ds, rest) =>
      match rest with
      | '.' :: _ => none
      | 'e' :: _ => none
      | 'E' :: _ => none
      | _ => some ((digitsVal ds : Int), rest)

mutual

/-- Fuelled JSON value parser (`JSON.parse` grammar; the dag-json `"/"`
reviver conventions for bytes and links are not applied — no claim feeds
dag-json byte/link tokens through this path). -/
def parseVal : Nat → List Char → Option (Val × List Char)
  | 0, _ => none
  | fuel + 1, cs =>
    match skipWs cs with
    | [] => none
    | c :: r =>
      if c = '"' then (fun p => (Val.str ⟨p.1⟩, p.2)) <$> strLoop r
      else if c = 't' then
        match r with
        | 'r' :: 'u' :: 'e' :: r' => some (.bool true, r')
        | _ => none
      else if c = 'f' then
        match r with
        | 'a' :: 'l' :: 's' :: 'e' :: r' => some (.bool false, r')
        | _ => none
      else if c = 'n' then
        match r with
        | 'u' :: 'l' :: 'l' :: r' => some (.null, r')
        | _ => none
      else if c = '[' then
        match skipWs r with
        | ']' :: r' => some (.arr [], r')
        | r' => (fun p => (Val.arr p.1, p.2)) <$> parseArrItems fuel r'
      else if c = Char.ofNat 0x7B then
        match skipWs r with
        | r' =>
          if r'.head? = some (Char.ofNat 0x7D) then some (.obj [], r'.tail)
          else (fun p => (Val.obj p.1, p.2)) <$> parseObjItems fuel r'
      else (fun p => (Val.num p.1, p.2)) <$> parseNum (c :: r)

def parseArrItems : Nat → List Char → Option (List Val × List Char)
  | 0, _ => none
  | fuel + 1, cs => do
    let (v, rest) ← parseVal fuel cs
    match skipWs rest with
    | ',' :: r => (fun p => (v :: p.1, p.2)) <$> parseArrItems fuel r
    | ']' :: r => some ([v], r)
    | _ => none

def parseObjItems : Nat → List Char → Option (List (String × Val) × List Char)
  | 0, _ => none
  | fuel + 1, cs =>
    match skipWs cs with
    | '"' :: r => do
      let (key, rest) ← strLoop r
      match skipWs rest with
      | ':' :: r2 => do
        let (v, rest2) ← parseVal fuel r2
        match skipWs rest2 with
        | ',' :: r3 => (fun p => ((⟨key⟩, v) :: p.1, p.2)) <$> parseObjItems fuel r3
        | r3 =>
          if r3.head? = some (Char.ofNat 0x7D) then some ([(⟨key⟩, v)], r3.tail)
          else none
      | _ => none
    | _ => none

end

/-- `JSON.parse`: parse one value, allow trailing whitespace only. -/
def parse (s : String) : Option Val :=
  match parseVal (s.length + 1) s.data with
  | some (v, rest) => if skipWs rest = [] then some v else none
  | none => none

/-- `json.decode` of `@ipld/dag-json`: UTF-8 decode the bytes, then parse. -/
def decode (b : List Nat) : Option Val := parse (UTF8.decode b)

end Json

/-! ## DAG-CBOR (`@ipld/dag-cbor`), on the value subset this library uses -/

namespace Cbor

/-- Read a CBOR argument given the additional-information bits.
Indefinite lengths and reserved values fail. -/
def readArg (ai : Nat) (rest : List Nat) : Option (Nat × List Nat) :=
  if ai < 24 then some (ai, rest)
  else if ai = 24 then
    match rest with
    | x :: r => some (x, r)
    | _ => none
  else if ai = 25 then
    match rest with
    | x1 :: x2 :: r => some (x1 * 256 + x2, r)
    | _ => none
  else if ai = 26 then
    match rest with
    | x1 :: x2 :: x3 :: x4 :: r => some (((x1 * 256 + x2) * 256 + x3) * 256 + x4, r)
    | _ => none
  else if ai = 27 then
    match rest with
    | x1 :: x2 :: x3 :: x4 :: x5 :: x6 :: x7 :: x8 :: r =>
      some (((((((x1 * 256 + x2) * 256 + x3) * 256 + x4) * 256 + x5) * 256 + x6) * 256 + x7)
        * 256 + x8, r)
    | _ => none
  else none

mutual

/-- Fuelled DAG-CBOR item decoder. Floats and indefinite-length items are
not modelled (decoding them fails); minimal-length argument encoding is not
re-checked. -/
def readVal : Nat → List Nat → Option (Val × List Nat)
  | 0, _ => none
  | fuel + 1, b =>
    match b with
    | [] => none
    | b0 :: rest =>
      let major := b0 / 32
      let ai := b0 % 32
      match readArg ai rest with
      | none => none
      | some (arg, r) =>
        if major = 0 then some (.num (arg : Int), r)
        else if major = 1 then some (.num (-1 - (arg : Int)), r)
        else if major = 2 then
          if arg ≤ r.length then some (.bytes (r.take arg), r.drop arg) else none
        else if major = 3 then
          if arg ≤ r.length then
            let chunk := r.take arg
            let s := UTF8.decode chunk
            if UTF8.encode s = chunk then some (.str s, r.drop arg) else none
          else none
        else if major = 4 then
          if arg = 0 then some (.arr [], r) else
            (fun p => (Val.arr p.1, p.2)) <$> readItems fuel arg r
        else if major = 5 then
          if arg = 0 then some (.obj [], r) else
            (fun p => (Val.obj p.1, p.2)) <$> readPairs fuel arg r
        else if major = 6 then
          if arg = 42 then
            match readVal fuel (b0 % 32 :: r) with
            | _ => -- tags carry exactly one item; read it from `r`
              match readVal fuel r with
              | some (.bytes (0 :: cidBytes), r2) =>
                match cidFromBytes cidBytes with
                | some c => some (.link c, r2)
                | none => none
              | _ => none
          else none
        else if b0 = 0xF4 then some (.bool false, r)
        else if b0 = 0xF5 then some (.bool true, r)
        else if b0 = 0xF6 then some (.null, r)
        else none

def readItems : Nat → Nat → List Nat → Option (List Val × List Nat)
  | 0, _, _ => none
  | _, 0, b => some ([], b)
  | fuel + 1, n + 1, b => do
    let (v, rest) ← readVal fuel b
    let (vs, rest2) ← readItems fuel n rest
    some (v :: vs, rest2)

def readPairs : Nat → Nat → List Nat → Option (List (String × Val) × List Nat)
  | 0, _, _ => none
  | _, 0, b => some ([], b)
  | fuel + 1, n + 1, b => do
    let (k, rest) ← readVal fuel b
    match k with
    | .str key => do
      let (v, rest2) ← readVal fuel rest
      let (kvs, rest3) ← readPairs fuel n rest2
      some ((key, v) :: kvs, rest3)
    | _ => none

end

/-- `CBOR.decode` (`@ipld/dag-cbor`): decode one item, reject trailing
bytes; `none` models the thrown decode error. -/
def decode (b : List Nat) : Option Val :=
  match readVal (2 * b.length + 2) b with
  | some (v, []) => some v
  | _ => none

/-- Minimal-length CBOR head for a major type and argument. -/
def head (major arg : Nat) : List Nat :=
  if arg < 24 then [major * 32 + arg]
  else if arg < 256 then [major * 32 + 24, arg]
  else if arg < 65536 then [major * 32 + 25, arg / 256, arg % 256]
  else if arg < 4294967296 then
    [major * 32 + 26, arg / 16777216, arg / 65536 % 256, arg / 256 % 256, arg % 256]
  else
    [major * 32 + 27, arg / 72057594037927936, arg / 281474976710656 % 256,
      arg / 1099511627776 % 256, arg / 4294967296 % 256, arg / 16777216 % 256,
      arg / 65536 % 256, arg / 256 % 256, arg % 256]

/-- dag-cbor canonical map-key order: length-first, then bytewise. -/
def keyLt (a b : String) : Bool :=
  let ab := UTF8.encode a
  let bb := UTF8.encode b
  if ab.length ≠ bb.length then ab.length < bb.length
  else decide (ab < bb)

def insertSorted (kv : String × Val) : List (String × Val) → List (String × Val)
  | [] => [kv]
  | x :: r => if keyLt kv.1 x.1 then kv :: x :: r else x :: insertSorted kv r

def sortPairs : List (String × Val) → List (String × Val)
  | [] => []
  | kv :: r => insertSorted kv (sortPairs r)

mutual

/-- Executable size of a value (bounds the nesting depth). -/
def valSize : Val → Nat
  | .arr l => 1 + valListSize l
  | .obj l => 1 + valPairsSize l
  | _ => 1

def valListSize : List Val → Nat
  | [] => 0
  | v :: r => valSize v + valListSize r

def valPairsSize : List (String × Val) → Nat
  | [] => 0
  | (_, v) :: r => valSize v + valPairsSize r

end

/-- Fuelled worker for the encoder (`fuel` bounds nesting depth, which the
wrapper instantiates with the term size). -/
def encodeValF : Nat → Val → List Nat
  | 0, _ => []
  | fuel + 1, v =>
    match v with
    | .null => [0xF6]
    | .bool false => [0xF4]
    | .bool true => [0xF5]
    | .num n => if 0 ≤ n then head 0 n.toNat else head 1 (-1 - n).toNat
    | .str s => head 3 (UTF8.encode s).length ++ UTF8.encode s
    | .bytes b => head 2 b.length ++ b
    | .arr l => head 4 l.length ++ (l.map (encodeValF fuel)).flatten
    | .obj l =>
      let sorted := sortPairs l
      head 5 sorted.length ++
        (sorted.map (fun kv =>
          (head 3 (UTF8.encode kv.1).length ++ UTF8.encode kv.1) ++ encodeValF fuel kv.2)).flatten
    | .link c => head 6 42 ++ (head 2 (c.toBytes.length + 1) ++ (0 :: c.toBytes))

/-- `CBOR.encode` (`@ipld/dag-cbor`) on the value subset this library
builds: deterministic encoding with sorted map keys. -/
def encodeVal (v : Val) : List Nat := encodeValF (valSize v) v

/-- `CBOR.encode` entry point. -/
def encode (v : Val) : List Nat := encodeVal v

end Cbor

/-- `input.split(sep)` of JavaScript for a single-character separator
(implemented over character lists so that it evaluates by reduction). -/
def splitCharList (sep : Char) : List Char → List (List Char)
  | [] => [[]]
  | c :: r =>
    if c = sep then [] :: splitCharList sep r
    else
      match splitCharList sep r with
      | h :: t => (c :: h) :: t
      | [] => [[c]]

def jsSplit (sep : Char) (s : String) : List String :=
  (splitCharList sep s.data).map (fun l => ⟨l⟩)

/-- `s.startsWith(p)` (list-based for reducibility). -/
def strStarts (s p : String) : Bool := p.data.isPrefixOf s.data

/-! ## `did.js` — principals as tagged byte views -/

namespace DID

def ED25519 : Nat := 0xed
def RSA : Nat := 0x1205
def P256 : Nat := 0x1200
def P384 : Nat := 0x1201
def P521 : Nat := 0x1202
def SECP256K1 : Nat := 0xe7
def BLS12381G1 : Nat := 0xea
def BLS12381G2 : Nat := 0xeb
def DID_CORE : Nat := 0x0d1d

/-- `METHOD_OFFSET = varint.encodingLength(DID_CORE)`. -/
def METHOD_OFFSET : Nat := Varint.encodingLength DID_CORE

/-- `decode` from `did.js`: checks the leading multicodec tag and wraps the
bytes in a `DIDKey` or `DID` view (modelled as the bytes themselves; the
class dispatch is recovered from the tag in `toText`). The `case P256`
length guard falls through to the key branch when the length is fine. -/
def decode (bytes : Bytes) : Except Err Bytes :=
  match Varint.decode bytes with
  | none => .error (.range "Unexpected end of data")
  | some (code, _) =>
    if code = P256 ∧ bytes.length > 35 then
      .error (.range "Only p256-pub compressed is supported.")
    else if code = P256 ∨ code = ED25519 ∨ code = RSA ∨ code = P384 ∨ code = P521 ∨
        code = BLS12381G1 ∨ code = BLS12381G2 ∨ code = SECP256K1 ∨ code = DID_CORE then
      .ok bytes
    else
      .error (.range ("Unsupported DID encoding, unknown multicode 0x" ++ toString code ++ "."))

/-- `did()` of the `DID` / `DIDKey` views: `DID_CORE`-tagged bytes render as
`did:` plus the UTF-8 suffix, key bytes as `did:key:` plus base58btc. -/
def toText (bytes : Bytes) : String :=
  match Varint.decode bytes with
  | some (code, _) =>
    if code = DID_CORE then "did:" ++ UTF8.decode (bytes.drop METHOD_OFFSET)
    else "did:key:" ++ Base58.encode bytes
  | none => "did:key:" ++ Base58.encode bytes

/-- `parse` from `did.js`. -/
def parse (did : String) : Except Err Bytes :=
  if ¬ strStarts did "did:" then
    .error (.range ("Invalid DID \"" ++ did ++ "\", must start with 'did:'"))
  else if strStarts did "did:key:" then
    match Base58.decode (did.drop 8) with
    | some key => decode key
    | none => .error (.typed "Non-base58btc character")
  else
    .ok (Varint.encode DID_CORE ++ UTF8.encode (did.drop 4))

/-- `format(id) = id.did()`. -/
def format (bytes : Bytes) : String := toText bytes

end DID

/-! ## `signature.js` — the VarSig envelope -/

namespace Signature

def NON_STANDARD : Nat := 0xd000
def ES256K : Nat := 0xd0e7
def BLS12381G1 : Nat := 0xd0ea
def BLS12381G2 : Nat := 0xd0eb
def EdDSA : Nat := 0xd0ed
def ES256 : Nat := 0xd01200
def ES384 : Nat := 0xd01201
def ES512 : Nat := 0xd01202
def RS256 : Nat := 0xd01205
def EIP191 : Nat := 0xd191

/-- `codeName`: `RangeError` on an unknown signature algorithm code. -/
def codeName (code : Nat) : Except Err String :=
  if code = ES256K then .ok "ES256K"
  else if code = BLS12381G1 then .ok "BLS12381G1"
  else if code = BLS12381G2 then .ok "BLS12381G2"
  else if code = EdDSA then .ok "EdDSA"
  else if code = ES256 then .ok "ES256"
  else if code = ES384 then .ok "ES384"
  else if code = ES512 then .ok "ES512"
  else if code = RS256 then .ok "RS256"
  else if code = EIP191 then .ok "EIP191"
  else .error (.range ("Unknown signature algorithm code 0x" ++ toString code))

/-- `nameCode`: unknown names map to `NON_STANDARD`. -/
def nameCode (name : String) : Nat :=
  if name = "ES256K" then ES256K
  else if name = "BLS12381G1" then BLS12381G1
  else if name = "BLS12381G2" then BLS12381G2
  else if name = "EdDSA" then EdDSA
  else if name = "ES256" then ES256
  else if name = "ES384" then ES384
  else if name = "ES512" then ES512
  else if name = "RS256" then RS256
  else if name = "EIP191" then EIP191
  else NON_STANDARD

/-- The `code` getter: leading varint. A `Signature` view is modelled as its
underlying bytes (the view spans the whole buffer). -/
def code (b : Bytes) : Except Err Nat :=
  match Varint.decode b with
  | some (c, _) => .ok c
  | none => .error (.range "Unexpected end of data")

/-- The `size` getter: varint after the code. -/
def size (b : Bytes) : Except Err Nat := do
  let c ← code b
  match Varint.decode (b.drop (Varint.encodingLength c)) with
  | some (s, _) => .ok s
  | none => .error (.range "Unexpected end of data")

/-- The `raw` getter: `size` bytes after the two varints. -/
def raw (b : Bytes) : Except Err Bytes := do
  let c ← code b
  let s ← size b
  .ok ((b.drop (Varint.encodingLength c + Varint.encodingLength s)).take s)

/-- The `algorithm` getter: for `NON_STANDARD` the trailing UTF-8 name,
otherwise `codeName` (which raises `RangeError` on unknown codes). -/
def algorithm (b : Bytes) : Except Err String := do
  let c ← code b
  if c = NON_STANDARD then
    let s ← size b
    .ok (UTF8.decode (b.drop (s + Varint.encodingLength c + Varint.encodingLength s)))
  else codeName c

/-- The envelope layout `<code><size><raw>` shared by `create`. -/
def mkEnvelope (c : Nat) (r : Bytes) : Bytes :=
  Varint.encode c ++ Varint.encode r.length ++ r

/-- `create`: validates the code via `codeName` (so `NON_STANDARD` and
unknown codes raise `RangeError`), then lays out the envelope. -/
def create (c : Nat) (r : Bytes) : Except Err Bytes := do
  let _ ← codeName c
  .ok (mkEnvelope c r)

/-- `createNonStandard`: envelope followed by the UTF-8 algorithm name. -/
def createNonStandard (name : String) (r : Bytes) : Bytes :=
  Varint.encode NON_STANDARD ++ Varint.encode r.length ++ r ++ UTF8.encode name

/-- `createNamed`: standard names delegate to `create`, anything else gets a
`NON_STANDARD` envelope. Total because `create` provably succeeds on every
code `nameCode` returns (`create_nameCode` below). -/
def createNamed (name : String) (r : Bytes) : Bytes :=
  if nameCode name = NON_STANDARD then createNonStandard name r
  else mkEnvelope (nameCode name) r

theorem create_nameCode (name : String) (r : Bytes) (h : nameCode name ≠ NON_STANDARD) :
    create (nameCode name) r = .ok (mkEnvelope (nameCode name) r) := by
  unfold nameCode at *
  split_ifs at h ⊢ <;>
    simp_all [create, codeName, NON_STANDARD, ES256K, BLS12381G1, BLS12381G2, EdDSA,
      ES256, ES384, ES512, RS256, EIP191, bind, Except.bind]

/-- `decode`: the `TypeError` branch for non-`Uint8Array` input is outside
this byte-level model; the destructuring `const { code, algorithm, raw } = signature`
eagerly evaluates the three getters, then the same bytes are returned. -/
def decode (b : Bytes) : Except Err Bytes := do
  let _ ← code b
  let _ ← algorithm b
  let _ ← raw b
  .ok b

/-- `encode = signature => decode(signature)`. -/
def encode (b : Bytes) : Except Err Bytes := decode b

end Signature

/-! ## `schema.js` — structural validation of payloads and capabilities -/

/-- UCAN payload after validation (`UCAN.Payload`): exactly the eight
recognised fields. `exp = none` models `null` (never expires); `nbf`/`nnc`
are `none` when absent. -/
structure Payload where
  iss : Bytes
  aud : Bytes
  att : List Val
  prf : List Cid
  exp : Option Int
  nbf : Option Int
  fct : List Val
  nnc : Option String
deriving Repr

/-- `UCAN.Model`: the payload plus version and signature
(`{...payload, v, s}`). -/
structure Model where
  pay : Payload
  v : String
  s : Bytes
deriving Repr

namespace Schema

/-- `readString`. -/
def readString (v : Option Val) (ctx : String) : Except Err String :=
  match v with
  | some (.str s) => .ok s
  | _ => .error (.parse (ctx ++ " has invalid value"))

/-- `readInt` (`Number.isInteger`; non-integer JSON numbers are outside the
value model and already fail at decode time). -/
def readInt (v : Option Val) (ctx : String) : Except Err Int :=
  match v with
  | some (.num n) => .ok n
  | _ => .error (.parse ("Expected " ++ ctx ++ " to be integer"))

/-- `readOptional`: absent (`undefined`) is fine, otherwise delegate. -/
def readOptional {α : Type} (read : Option Val → String → Except Err α)
    (v : Option Val) (ctx : String) : Except Err (Option α) :=
  match v with
  | none => .ok none
  | some x => (read (some x) ctx).map some

/-- `readNullable`: `null` is fine, otherwise delegate (an absent field is
passed through to the reader and fails there). -/
def readNullable {α : Type} (read : Option Val → String → Except Err α)
    (v : Option Val) (ctx : String) : Except Err (Option α) :=
  match v with
  | some .null => .ok none
  | v => (read v ctx).map some

def readArrayGo {α : Type} (read : Val → String → Except Err α) (ctx : String) :
    List Val → Nat → Except Err (List α)
  | [], _ => .ok []
  | v :: r, n => do
    let x ← read v (ctx ++ "[" ++ toString n ++ "]")
    let xs ← readArrayGo read ctx r (n + 1)
    .ok (x :: xs)

/-- `readArray`: `Array.isArray` then element-wise read with indexed
contexts. -/
def readArray {α : Type} (read : Val → String → Except Err α)
    (v : Option Val) (ctx : String) : Except Err (List α) :=
  match v with
  | some (.arr l) => readArrayGo read ctx l 0
  | _ => .error (.parse (ctx ++ " must be an array"))

/-- `readOptionalArray`. -/
def readOptionalArray {α : Type} (read : Val → String → Except Err α)
    (v : Option Val) (ctx : String) : Except Err (Option (List α)) :=
  match v with
  | none => .ok none
  | some x => (readArray read (some x) ctx).map some

/-- Is the value a JavaScript `object` (and not `null`)? Arrays, typed
arrays and CID objects all are. -/
def isObjectLike : Val → Bool
  | .obj _ => true
  | .arr _ => true
  | .bytes _ => true
  | .link _ => true
  | _ => false

/-- `readStruct`. -/
def readStruct {α : Type} (reader : Val → Except Err α) (v : Val) (ctx : String) :
    Except Err α :=
  if isObjectLike v then reader v
  else .error (.parse (ctx ++ " must be of type object"))

/-- `readFact` (`readStruct(input, Object, context)`; `Object` is the
identity on objects). -/
def readFact (v : Val) (ctx : String) : Except Err Val :=
  readStruct (fun x => .ok x) v ctx

/-- `toLocaleLowerCase`, modelled as ASCII lowering (no claim exercises
locale-dependent case mapping). -/
def toLowerJs (s : String) : String := ⟨s.data.map Char.toLower⟩

/-- `readAbility`: `input.slice(1, -1).includes("/")` accepts any string
with a `/` at an interior position; otherwise only the literal `"*"`. -/
def readAbility (v : Option Val) : Except Err String :=
  match v with
  | some (.str s) =>
    if ((s.data.drop 1).dropLast).contains '/' then .ok (toLowerJs s)
    else if s = "*" then .ok s
    else .error (.parse "Capability ability must have at least one path segment")
  | _ => .error (.parse "Capability ability must be a string")

def isSchemeChar (c : Char) : Bool :=
  ('a' ≤ c && c ≤ 'z') || ('A' ≤ c && c ≤ 'Z') || ('0' ≤ c && c ≤ '9') ||
    c = '+' || c = '-' || c = '.'

def schemeTail : List Char → Bool
  | [] => false
  | c :: r => if c = ':' then true else if isSchemeChar c then schemeTail r else false

/-- Success of `new URL(input)`: an absolute URI with a valid scheme. Host
requirements of special schemes (`http:` …) are not modelled; the claims
only exercise non-special schemes such as `my:`, `as:`, `mailto:`. -/
def isURL (s : String) : Bool :=
  match s.data with
  | c :: r => (('a' ≤ c && c ≤ 'z') || ('A' ≤ c && c ≤ 'Z')) && schemeTail r
  | [] => false

/-- `readResource`: a string that parses as a URL. -/
def readResource (v : Option Val) : Except Err String :=
  match v with
  | some (.str s) =>
    if isURL s then .ok s
    else .error (.parse "Capability resource must be a valid URI string")
  | _ => .error (.parse "Capability resource must be a string")

/-- Property update used to model `{...input, k: x}`: existing keys keep
their position, new keys are appended. -/
def setPair (k : String) (x : Val) : List (String × Val) → List (String × Val)
  | [] => [(k, x)]
  | (k', v') :: r => if k' = k then (k, x) :: r else (k', v') :: setPair k x r

/-- `{...input, k: x}` on an object; spreading of exotic objects (arrays,
byte views) is not modelled — the claims only build capabilities from plain
objects. -/
def Val.setField : Val → String → Val → Val
  | .obj l, k, x => .obj (setPair k x l)
  | v, _, _ => v

/-- `asCapability` from `schema.js`: validates `can` and `with` and returns
`{...input, can, with}` — every other key of the input is preserved.
(Note: unlike the older `parser.js` `asCapability`, there is no `my:*` /
`as:did:*` cross-field check here.) -/
def asCapability (v : Val) : Except Err Val := do
  let can ← readAbility (v.get "can")
  let w ← readResource (v.get "with")
  .ok ((Val.setField (Val.setField v "can" (.str can)) "with" (.str w)))

/-- `readCapability`. -/
def readCapability (v : Val) (ctx : String) : Except Err Val :=
  readStruct asCapability v ctx

/-- `readCapabilities`. -/
def readCapabilities (v : Option Val) (ctx : String) : Except Err (List Val) :=
  readArray readCapability v ctx

/-- `readProof` (CBOR path): the element must be an IPLD link. -/
def readProof (v : Val) (ctx : String) : Except Err Cid :=
  match v with
  | .link c => .ok c
  | _ => .error (.parse ("Expected " ++ ctx ++ " to be IPLD link"))

/-- `parseProof` (JWT path): parse as CID, or fall back to an inlined proof
— a CIDv1 with the RAW codec over the identity digest of the string. -/
def parseProofText (s : String) : Cid :=
  match cidParse s with
  | some l => l
  | none => ⟨1, 0x55, identityDigest (UTF8.encode s)⟩

/-- `readStringProof`. -/
def readStringProof (v : Val) (ctx : String) : Except Err Cid := do
  let s ← readString (some v) ctx
  .ok (parseProofText s)

/-- `readBytes`. -/
def readBytes (v : Option Val) (ctx : String) : Except Err Bytes :=
  match v with
  | some (.bytes b) => .ok b
  | _ => .error (.parse ("Expected " ++ ctx ++ " to be Uint8Array"))

/-- `readPrincipal` (CBOR path): bytes, validated by `DID.decode`. -/
def readPrincipal (v : Option Val) (ctx : String) : Except Err Bytes := do
  let b ← readBytes v ctx
  DID.decode b

/-- `readStringPrincipal` (JWT path). -/
def readStringPrincipal (v : Option Val) (ctx : String) : Except Err Bytes := do
  let s ← readString v ctx
  DID.parse s

def isDigit (c : Char) : Bool := '0' ≤ c && c ≤ '9'

def spanDigits : List Char → (List Char × List Char)
  | [] => ([], [])
  | c :: r =>
    if isDigit c then
      let (d, rest) := spanDigits r
      (c :: d, rest)
    else ([], c :: r)

/-- Match `\d+\.\d+\.\d+` at the head of the list. -/
def verAt (cs : List Char) : Bool :=
  match spanDigits cs with
  | ([], _) => false
  | (_, rest) =>
    match rest with
    | '.' :: r2 =>
      match spanDigits r2 with
      | ([], _) => false
      | (_, rest2) =>
        match rest2 with
        | '.' :: r3 => !(spanDigits r3).1.isEmpty
        | _ => false
    | _ => false

/-- Unanchored search for the version pattern
(`/\d+\.\d+\.\d+/.test(input)`). -/
def hasVer : List Char → Bool
  | [] => false
  | c :: r => verAt (c :: r) || hasVer r

/-- `readVersion`: the regex test passes only for strings here — the
JavaScript coercion of non-strings never yields a match for the values the
codecs produce. -/
def readVersion (v : Option Val) (ctx : String) : Except Err String :=
  match v with
  | some (.str s) => if hasVer s.data then .ok s else .error (.parse ("Invalid version " ++ ctx))
  | _ => .error (.parse ("Invalid version " ++ ctx))

/-- `readLiteral`. -/
def readLiteral (v : Option Val) (lit : String) (ctx : String) : Except Err String :=
  match v with
  | some (.str s) => if s = lit then .ok lit else .error (.parse ("Expected " ++ ctx))
  | _ => .error (.parse ("Expected " ++ ctx))

/-- `readPayloadWith`: builds the payload object, reading exactly the eight
recognised fields in literal order. (`data.exp === Infinity` is coerced to
`null` in the source; the decoded value model cannot carry `Infinity`.) -/
def readPayloadWith (readP : Option Val → String → Except Err Bytes)
    (readPr : Val → String → Except Err Cid) (data : Val) : Except Err Payload := do
  let iss ← readP (data.get "iss") "iss"
  let aud ← readP (data.get "aud") "aud"
  let att ← readCapabilities (data.get "att") "att"
  let prf ← (readOptionalArray readPr (data.get "prf") "prf").map (fun o => o.getD [])
  let exp ← readNullable readInt (data.get "exp") "exp"
  let nbf ← readOptional readInt (data.get "nbf") "nbf"
  let fct ← (readOptionalArray readFact (data.get "fct") "fct").map (fun o => o.getD [])
  let nnc ← readOptional readString (data.get "nnc") "nnc"
  .ok ⟨iss, aud, att, prf, exp, nbf, fct, nnc⟩

/-- `readPayload` (CBOR path). -/
def readPayload (data : Val) : Except Err Payload :=
  readPayloadWith readPrincipal readProof data

/-- `readJWTPayload` (JWT path). -/
def readJWTPayload (data : Val) : Except Err Payload :=
  readPayloadWith readStringPrincipal readStringProof data

/-- `readSignature`: a byte string reinterpreted through
`Signature.decode`, `TypeError` otherwise. -/
def readSignature (v : Option Val) : Except Err Bytes :=
  match v with
  | some (.bytes b) => Signature.decode b
  | _ => .error (.typed "Can only decode Uint8Array into a Signature")

end Schema

/-! ## `parser.js` — JWT → Model -/

namespace Parser

def b64Decode (s : String) : Except Err Bytes :=
  match Base64Url.baseDecode s with
  | some b => .ok b
  | none => .error (.typed "Unable to decode multibase string")

def jsonDecode (b : Bytes) : Except Err Val :=
  match Json.decode b with
  | some v => .ok v
  | none => .error (.typed "Invalid JSON")

/-- `parseHeader`: base64url + dag-json decode, then
`{ typ: readLiteral(typ,"JWT"), ucv: readVersion(ucv), alg: readString(alg) }`. -/
def parseHeader (header : String) : Except Err (String × String × String) := do
  let bytes ← b64Decode header
  let v ← jsonDecode bytes
  let typ ← Schema.readLiteral (v.get "typ") "JWT" "typ"
  let ucv ← Schema.readVersion (v.get "ucv") "ucv"
  let alg ← Schema.readString (v.get "alg") "alg"
  .ok (typ, ucv, alg)

/-- `parsePayload`: base64url + dag-json decode, then `readJWTPayload`. -/
def parsePayload (source : String) : Except Err Payload := do
  let bytes ← b64Decode source
  let v ← jsonDecode bytes
  Schema.readJWTPayload v

/-- `parse` from `parser.js`: split on `.`, parse header and payload, build
the signature with `createNamed(alg, base64url.baseDecode(signature))`. -/
def parse (jwt : String) : Except Err Model :=
  match jsSplit '.' jwt with
  | [header, payload, signature] => do
    let (_typ, ucv, alg) ← parseHeader header
    let pay ← parsePayload payload
    let sigBytes ← b64Decode signature
    .ok ⟨pay, ucv, Signature.createNamed alg sigBytes⟩
  | _ =>
    .error (.parse "Expected JWT format: 3 dot-separated base64url-encoded values")

end Parser

/-! ## `formatter.js` — Model → JWT -/

namespace Formatter

/-- `encodeHeader(data, alg) = json.encode({alg, ucv: data.v, typ: "JWT"})`. -/
def encodeHeader (v : String) (alg : String) : Bytes :=
  Json.encode (.obj [("alg", .str alg), ("ucv", .str v), ("typ", .str "JWT")])

def formatHeader (v : String) (alg : String) : String :=
  Base64Url.baseEncode (encodeHeader v alg)

/-- `encodePayload`: canonical field order `iss, aud, att, exp, prf`, then
`fct` (only if non-empty), `nnc` (only if truthy), `nbf` (only if truthy). -/
def encodePayload (p : Payload) : Bytes :=
  Json.encode (.obj
    ([("iss", .str (DID.format p.iss)),
      ("aud", .str (DID.format p.aud)),
      ("att", .arr p.att),
      ("exp", match p.exp with | some n => .num n | none => .null),
      ("prf", .arr (p.prf.map (fun c => .str c.toText)))] ++
      (if p.fct.length > 0 then [("fct", .arr p.fct)] else []) ++
      (match p.nnc with
        | some s => if s ≠ "" then [("nnc", Val.str s)] else []
        | none => []) ++
      (match p.nbf with
        | some n => if n ≠ 0 then [("nbf", Val.num n)] else []
        | none => [])))

def formatPayload (p : Payload) : String := Base64Url.baseEncode (encodePayload p)

/-- `formatSignature(signature) = base64url.baseEncode(signature.raw)`. -/
def formatSignature (s : Bytes) : Except Err String :=
  (Signature.raw s).map Base64Url.baseEncode

/-- `format(model)`: header (with the signature's `algorithm`), payload,
and the raw signature, dot-separated.  The `algorithm` getter runs first
and may throw; `formatSignature` runs last. -/
def format (m : Model) : Except Err String := do
  let alg ← Signature.algorithm m.s
  let sig ← formatSignature m.s
  .ok (formatHeader m.v alg ++ "." ++ formatPayload m.pay ++ "." ++ sig)

/-- `formatSignPayload(model, alg)`. -/
def formatSignPayload (m : Model) (alg : String) : String :=
  formatHeader m.v alg ++ "." ++ formatPayload m.pay

end Formatter

/-! ## `codec/cbor.js` — DAG-CBOR codec of the Model -/

namespace CborCodec

def code : Nat := 0x71

/-- The JavaScript model object corresponding to a `Model` structure
(fields with `undefined` values are absent). -/
def modelToVal (m : Model) : Val :=
  .obj
    ([("iss", .bytes m.pay.iss),
      ("aud", .bytes m.pay.aud),
      ("att", .arr m.pay.att),
      ("prf", .arr (m.pay.prf.map Val.link)),
      ("exp", match m.pay.exp with | some n => .num n | none => .null)] ++
      (match m.pay.nbf with | some n => [("nbf", Val.num n)] | none => []) ++
      (if m.pay.fct.length > 0 then [("fct", Val.arr m.pay.fct)] else
        [("fct", Val.arr [])]) ++
      (match m.pay.nnc with | some s => [("nnc", Val.str s)] | none => []) ++
      [("v", .str m.v), ("s", .bytes m.s)])

/-- `decode` from `codec/cbor.js`: DAG-CBOR decode, then re-validate into a
model — `{...readPayload(model), v: readVersion(model.v), s: readSignature(model.s)}`.
(The source wraps the result in a `CBORView`; the facade below does the
wrapping.) -/
def readModel (model : Val) : Except Err Model := do
  let pay ← Schema.readPayload model
  let v ← Schema.readVersion (model.get "v") "v"
  let s ← Schema.readSignature (model.get "s")
  .ok ⟨pay, v, s⟩

def decodeModel (bytes : Bytes) : Except Err Model := do
  let model ← match Cbor.decode bytes with
    | some v => Except.ok v
    | none => Except.error (Err.typed "CBOR decode error")
  readModel model

/-- `encode` from `codec/cbor.js`: re-validate the model through
`readPayload`, drop empty/absent optionals, add `v` and `s`, DAG-CBOR
encode. -/
def encodeModel (m : Model) : Except Err Bytes := do
  let pay ← Schema.readPayload (modelToVal m)
  let v ← Schema.readVersion (some (.str m.v)) "v"
  let s ← match Signature.encode m.s with
    | .ok s => Except.ok s
    | .error _ => Except.error (Err.typed "Expected signature s")
  .ok (Cbor.encode (.obj
    ((if pay.fct.length > 0 then [("fct", Val.arr pay.fct)] else []) ++
      (match pay.nnc with | some s => [("nnc", Val.str s)] | none => []) ++
      (match pay.nbf with
        | some n => if n ≠ 0 then [("nbf", Val.num n)] else []
        | none => []) ++
      [("iss", .bytes pay.iss),
        ("aud", .bytes pay.aud),
        ("att", .arr pay.att),
        ("prf", .arr (pay.prf.map Val.link)),
        ("exp", match pay.exp with | some n => Val.num n | none => Val.null),
        ("v", .str v), ("s", .bytes s)])))

end CborCodec

/-! ## `view.js` and the `lib.js` facade -/

/-- `UCAN.View`: either the primary IPLD (CBOR) representation or the
secondary JWT representation retaining the original bytes
(`View.cbor(model)` / `View.jwt(model, bytes)` from `view.js`). -/
inductive UCANView where
  | cbor (model : Model)
  | jwt (model : Model) (bytes : Bytes)
deriving Repr

/-- The `code` field: `CBOR_CODE = 0x71` for CBOR views,
`RAW_CODE = 0x55` for JWT views. -/
def UCANView.code : UCANView → Nat
  | .cbor _ => 0x71
  | .jwt _ _ => 0x55

def UCANView.model : UCANView → Model
  | .cbor m => m
  | .jwt m _ => m

namespace Lib

def VERSION : String := "0.9.1"

/-- `parse` from `lib.js`: parse the JWT, and promote to the IPLD (CBOR)
representation exactly when re-formatting reproduces the input string. -/
def parse (jwt : String) : Except Err UCANView := do
  let model ← Parser.parse jwt
  let canonical ← Formatter.format model
  if canonical = jwt then .ok (.cbor model) else .ok (.jwt model (UTF8.encode jwt))

/-- `format` from `lib.js`: JWT views decode their retained bytes, CBOR
views re-format the model. -/
def format (u : UCANView) : Except Err String :=
  match u with
  | .jwt _ b => .ok (UTF8.decode b)
  | .cbor m => Formatter.format m

/-- `encode` from `lib.js`: JWT views return the retained bytes, CBOR views
DAG-CBOR-encode the model. -/
def encode (u : UCANView) : Except Err Bytes :=
  match u with
  | .jwt _ b => .ok b
  | .cbor m => CborCodec.encodeModel m

/-- `decode` from `lib.js`: try DAG-CBOR first; on any failure parse the
bytes as a UTF-8 JWT and retain them in a JWT view. -/
def decode (bytes : Bytes) : Except Err UCANView :=
  match CborCodec.decodeModel bytes with
  | .ok m => .ok (.cbor m)
  | .error _ => do
    let model ← Parser.parse (UTF8.decode bytes)
    .ok (.jwt model bytes)

/-- The result of `write`. -/
structure Block where
  bytes : Bytes
  cid : Cid
  data : Model
deriving Repr

/-- `write` from `lib.js`: encode per representation, hash, and build a
CIDv1 whose codec is the view's `code`. The hasher is a parameter (the
default is SHA-256). -/
def write (u : UCANView) (hasher : Bytes → Multihash) : Except Err Block := do
  let bytes ← match u with
    | .jwt _ b => Except.ok b
    | .cbor m => CborCodec.encodeModel m
  .ok ⟨bytes, ⟨1, u.code, hasher bytes⟩, u.model⟩

/-- `link`: the CID of `write`. -/
def link (u : UCANView) (hasher : Bytes → Multihash) : Except Err Cid :=
  (write u hasher).map Block.cid

end Lib

/-! ## Concrete fixtures

Tokens built with the library's own formatter over a small model: two
`did:` (DID-core) principals, one capability, `exp = 9`, a 3-byte raw
signature. -/

/-- The canonical JWT fixture: its canonical re-emission is itself. -/
def jFix : String :=
  "eyJhbGciOiJFZERTQSIsInVjdiI6IjAuOS4xIiwidHlwIjoiSldUIn0.eyJpc3MiOiJkaWQ6eDphIiwiYXVkIjoiZGlkOnk6YiIsImF0dCI6W3siY2FuIjoieC95Iiwid2l0aCI6Im15OnoifV0sImV4cCI6OSwicHJmIjpbXX0.AQID"

/-- The model `Parser.parse` produces for `jFix`. -/
def modelFix : Model :=
  { pay :=
    { iss := [157, 26, 120, 58, 97]
      aud := [157, 26, 121, 58, 98]
      att := [.obj [("can", .str "x/y"), ("with", .str "my:z")]]
      prf := []
      exp := some 9
      nbf := none
      fct := []
      nnc := none }
    v := "0.9.1"
    s := [237, 161, 3, 3, 1, 2, 3] }

/-- A foreign JWT: same token with an unrecognised payload key `"foo"`,
so the canonical re-emission differs from the input. -/
def jForeign : String :=
  "eyJhbGciOiJFZERTQSIsInVjdiI6IjAuOS4xIiwidHlwIjoiSldUIn0.eyJpc3MiOiJkaWQ6eDphIiwiYXVkIjoiZGlkOnk6YiIsImF0dCI6W3siY2FuIjoieC95Iiwid2l0aCI6Im15OnoifV0sImV4cCI6OSwicHJmIjpbXSwiZm9vIjoxfQ.AQID"

/-- A JWT whose header `alg` is the unrecognised name `"ed25519"`. -/
def jBadAlg : String :=
  "eyJhbGciOiJlZDI1NTE5IiwidWN2IjoiMC45LjEiLCJ0eXAiOiJKV1QifQ.eyJpc3MiOiJkaWQ6eDphIiwiYXVkIjoiZGlkOnk6YiIsImF0dCI6W3siY2FuIjoieC95Iiwid2l0aCI6Im15OnoifV0sImV4cCI6OSwicHJmIjpbXX0.AQID"

/-- The model `Parser.parse` produces for `jBadAlg`: a `NON_STANDARD`
signature envelope carrying the name `ed25519`. -/
def modelBadAlg : Model :=
  { pay := modelFix.pay
    v := "0.9.1"
    s := [128, 160, 3, 3, 1, 2, 3, 101, 100, 50, 53, 53, 49, 57] }

/-- A JWT whose capability is `{can: "msg/send", with: "my:*"}`. -/
def jMyStar : String :=
  "eyJhbGciOiJFZERTQSIsInVjdiI6IjAuOS4xIiwidHlwIjoiSldUIn0.eyJpc3MiOiJkaWQ6eDphIiwiYXVkIjoiZGlkOnk6YiIsImF0dCI6W3siY2FuIjoibXNnL3NlbmQiLCJ3aXRoIjoibXk6KiJ9XSwiZXhwIjo5LCJwcmYiOltdfQ.AQID"

/-- The model `Parser.parse` produces for `jMyStar`. -/
def modelMyStar : Model :=
  { pay :=
    { modelFix.pay with att := [.obj [("can", .str "msg/send"), ("with", .str "my:*")]] }
    v := "0.9.1"
    s := [237, 161, 3, 3, 1, 2, 3] }

/-! ## Claim theorems -/

/-- Unfolding of `Lib.parse` into an explicit case split. -/
theorem libParse_cases (j : String) :
    Lib.parse j =
      match Parser.parse j with
      | .error e => .error e
      | .ok m =>
        match Formatter.format m with
        | .error e => .error e
        | .ok c => if c = j then .ok (.cbor m) else .ok (.jwt m (UTF8.encode j)) := by
  unfold Lib.parse
  cases hp : Parser.parse j with
  | error e => rfl
  | ok m =>
    cases hf : Formatter.format m with
    | error e => simp [bind, Except.bind, hf]
    | ok c => simp [bind, Except.bind, hf]

/-- **C1.** For every JWT string `j` that `parse` accepts, `format (parse j)`
returns `j` bit-identically: when the canonical re-emission
`Formatter.format model` equals `j` the result is a CBOR-view whose `format`
re-emits that canonical string, and otherwise it is a JWT-view whose
`format` returns the retained original bytes decoded as UTF-8. -/
theorem ucan_c1_jwt_roundtrip (j : String) (u : UCANView)
    (h : Lib.parse j = Except.ok u) :
    Lib.format u = Except.ok j ∧
    (∀ m c, Parser.parse j = Except.ok m → Formatter.format m = Except.ok c →
      (c = j → u = UCANView.cbor m) ∧ (c ≠ j → u = UCANView.jwt m (UTF8.encode j))) := by
  rw [libParse_cases] at h
  cases hp : Parser.parse j with
  | error e => rw [hp] at h; cases h
  | ok m =>
    rw [hp] at h
    simp only [] at h
    cases hf : Formatter.format m with
    | error e => rw [hf] at h; simp only [] at h; cases h
    | ok c =>
      rw [hf] at h
      simp only [] at h
      by_cases hc : c = j
      · rw [if_pos hc] at h
        cases h
        refine ⟨?_, ?_⟩
        · show Formatter.format m = Except.ok j
          rw [hf, hc]
        · intro m' c' hp' hf'
          cases hp'
          rw [hf] at hf'
          cases hf'
          exact ⟨fun _ => rfl, fun hne => absurd hc hne⟩
      · rw [if_neg hc] at h
        cases h
        refine ⟨?_, ?_⟩
        · show Except.ok (UTF8.decode (UTF8.encode j)) = Except.ok j
          rw [UTF8.decodeEncode]
        · intro m' c' hp' hf'
          cases hp'
          rw [hf] at hf'
          cases hf'
          exact ⟨fun hcj => absurd hcj hc, fun _ => rfl⟩

/-- Witness for C1 at the canonical fixture. -/
theorem ucan_c1_witness :
    Lib.parse jFix = Except.ok (UCANView.cbor modelFix) ∧
    Lib.format (UCANView.cbor modelFix) = Except.ok jFix :=
  ⟨by rfl, (ucan_c1_jwt_roundtrip jFix (UCANView.cbor modelFix) (by rfl)).1⟩

/-- **C2.** For every JWT string `j` whose canonical re-emission differs
from `j`, `parse j` yields a JWT-view (code `RAW = 0x55`),
`encode (parse j)` equals the UTF-8 bytes of `j`, and `link`/`write` on
that view produce a CIDv1 whose multicodec is RAW, not DAG-CBOR. -/
theorem ucan_c2_foreign_preserved (j : String) (m : Model) (c : String)
    (hp : Parser.parse j = Except.ok m) (hf : Formatter.format m = Except.ok c)
    (hne : c ≠ j) :
    Lib.parse j = Except.ok (UCANView.jwt m (UTF8.encode j)) ∧
    (UCANView.jwt m (UTF8.encode j)).code = 0x55 ∧
    Lib.encode (UCANView.jwt m (UTF8.encode j)) = Except.ok (UTF8.encode j) ∧
    (∀ hasher : Bytes → Multihash,
      Lib.write (UCANView.jwt m (UTF8.encode j)) hasher =
        Except.ok ⟨UTF8.encode j, ⟨1, 0x55, hasher (UTF8.encode j)⟩, m⟩ ∧
      Lib.link (UCANView.jwt m (UTF8.encode j)) hasher =
        Except.ok ⟨1, 0x55, hasher (UTF8.encode j)⟩) := by
  refine ⟨?_, rfl, rfl, ?_⟩
  · rw [libParse_cases, hp]
    simp only []
    rw [hf]
    simp only []
    rw [if_neg hne]
  · intro hasher
    exact ⟨rfl, rfl⟩

/-- Witness for C2 at the foreign fixture (an extra `"foo"` payload key
makes the canonical re-emission differ); the parsed model is `modelFix`
and the canonical re-emission is `jFix`. -/
theorem ucan_c2_witness :
    Lib.parse jForeign = Except.ok (UCANView.jwt modelFix (UTF8.encode jForeign)) ∧
    Lib.encode (UCANView.jwt modelFix (UTF8.encode jForeign)) =
      Except.ok (UTF8.encode jForeign) ∧
    Lib.link (UCANView.jwt modelFix (UTF8.encode jForeign)) identityDigest =
      Except.ok ⟨1, 0x55, identityDigest (UTF8.encode jForeign)⟩ := by
  have h := ucan_c2_foreign_preserved jForeign modelFix jFix (by rfl) (by rfl) (by decide)
  exact ⟨h.1, h.2.2.1, (h.2.2.2 identityDigest).2⟩

/-- **C3 (amended).** For every byte array `b` that fails DAG-CBOR decoding
but whose UTF-8 decoding is a JWT accepted by the parser, `decode b` is
always the JWT-view `View.jwt (Parser.parse (UTF8.decode b)) b` retaining
`b`: unlike `parse`, `decode` does **not** run the round-trip test, so even
when the canonical re-emission equals the string the result is a JWT-view. -/
theorem ucan_c3_decode_fallback (b : Bytes) (e : Err) (m : Model)
    (hc : CborCodec.decodeModel b = Except.error e)
    (hp : Parser.parse (UTF8.decode b) = Except.ok m) :
    Lib.decode b = Except.ok (UCANView.jwt m b) := by
  unfold Lib.decode
  rw [hc]
  simp only []
  rw [hp]
  rfl

/-- Witness for the amended C3 at the canonical fixture's bytes. -/
theorem ucan_c3_witness :
    Lib.decode (UTF8.encode jFix) = Except.ok (UCANView.jwt modelFix (UTF8.encode jFix)) :=
  ucan_c3_decode_fallback (UTF8.encode jFix) (Err.typed "CBOR decode error") modelFix
    (by rfl) (by rfl)

/-- **C3 (counterexample).** The claim as stated is false: for the UTF-8
bytes of the canonical fixture (which fail DAG-CBOR decoding, and whose
canonical re-emission equals the string), `decode` returns a JWT-view with
the RAW code, while `parse (UTF8.decode b)` returns a CBOR-view — `decode`
never promotes through the round-trip test. -/
theorem ucan_c3_counterexample :
    Lib.decode (UTF8.encode jFix) = Except.ok (UCANView.jwt modelFix (UTF8.encode jFix)) ∧
    Lib.parse (UTF8.decode (UTF8.encode jFix)) = Except.ok (UCANView.cbor modelFix) ∧
    (UCANView.jwt modelFix (UTF8.encode jFix)).code = 0x55 ∧
    (UCANView.cbor modelFix).code = 0x71 :=
  ⟨by rfl, by rfl, rfl, rfl⟩

/-- **C4.** The claim (and the spec, the repository's own tests, and the
older `parser.js` `asCapability`) requires a `ParseError` for a capability
whose `with` is `my:*` / `as:did:…:*` while `can` is not `"*"`. The current
`schema.js` `asCapability` — used by `parse`, `decode` and `issue` — has no
such cross-field check: evaluated at the failing input
`{with: "my:*", can: "msg/send"}` it returns the capability unchanged, and
a JWT carrying that capability parses successfully. -/
theorem ucan_c4_missing_capability_check :
    Schema.asCapability (Val.obj [("can", .str "msg/send"), ("with", .str "my:*")]) =
      Except.ok (Val.obj [("can", .str "msg/send"), ("with", .str "my:*")]) ∧
    Schema.readCapabilities
        (some (.arr [Val.obj [("can", .str "msg/send"), ("with", .str "my:*")]])) "att" =
      Except.ok [Val.obj [("can", .str "msg/send"), ("with", .str "my:*")]] ∧
    Parser.parse jMyStar = Except.ok modelMyStar :=
  ⟨by rfl, by rfl, by rfl⟩

/-- **C5.** `DID.decode` accepts exactly the byte strings whose leading
varint multicodec tag is Ed25519 `0xED`, RSA `0x1205`, P-256 `0x1200`
(with total length ≤ 35), P-384 `0x1201`, P-521 `0x1202`, SECP256K1 `0xE7`,
BLS12381G1 `0xEA`, BLS12381G2 `0xEB`, or DID-core `0x0D1D`; every other tag
raises a `RangeError` (as does an over-long P-256 key). -/
theorem ucan_c5_did_decode_tags (b : Bytes) (c k : Nat)
    (hv : Varint.decode b = some (c, k)) :
    ((c = 0xed ∨ c = 0x1205 ∨ (c = 0x1200 ∧ b.length ≤ 35) ∨ c = 0x1201 ∨ c = 0x1202 ∨
        c = 0xe7 ∨ c = 0xea ∨ c = 0xeb ∨ c = 0x0d1d) →
      DID.decode b = Except.ok b) ∧
    (¬ (c = 0xed ∨ c = 0x1205 ∨ (c = 0x1200 ∧ b.length ≤ 35) ∨ c = 0x1201 ∨ c = 0x1202 ∨
        c = 0xe7 ∨ c = 0xea ∨ c = 0xeb ∨ c = 0x0d1d) →
      ((c = 0x1200 ∧ b.length > 35) →
        DID.decode b = Except.error (.range "Only p256-pub compressed is supported.")) ∧
      (c ≠ 0x1200 →
        DID.decode b = Except.error
          (.range ("Unsupported DID encoding, unknown multicode 0x" ++ toString c ++ ".")))) := by
  unfold DID.decode
  rw [hv]
  simp only [DID.P256, DID.ED25519, DID.RSA, DID.P384, DID.P521, DID.BLS12381G1,
    DID.BLS12381G2, DID.SECP256K1, DID.DID_CORE]
  constructor
  · intro hacc
    have hnot : ¬ (c = 0x1200 ∧ b.length > 35) := by omega
    rw [if_neg hnot, if_pos (by omega)]
  · intro hrej
    refine ⟨?_, ?_⟩
    · intro hlong
      rw [if_pos hlong]
    · intro hne
      have hnot : ¬ (c = 0x1200 ∧ b.length > 35) := by omega
      rw [if_neg hnot, if_neg (by omega)]

/-- Witness for C5: a SECP256K1-tagged key is accepted; tag `0x03` is
rejected with a `RangeError`. -/
theorem ucan_c5_witness :
    DID.decode [231, 1, 5] = Except.ok [231, 1, 5] ∧
    DID.decode [3] = Except.error
      (.range ("Unsupported DID encoding, unknown multicode 0x" ++ toString 3 ++ ".")) := by
  have h1 := ucan_c5_did_decode_tags [231, 1, 5] 231 2 (by rfl)
  have h2 := ucan_c5_did_decode_tags [3] 3 1 (by rfl)
  exact ⟨h1.1 (by decide), (h2.2 (by decide)).2 (by decide)⟩

/-! Signature accessor lemmas over the envelope layout. -/

theorem drop_encodePre (c : Nat) (rest : Bytes) :
    (Varint.encode c ++ rest).drop (Varint.encodingLength c) = rest := by
  show (Varint.encode c ++ rest).drop (Varint.encode c).length = rest
  exact List.drop_left _ _

theorem sig_code_env (c : Nat) (rest : Bytes) :
    Signature.code (Varint.encode c ++ rest) = Except.ok c := by
  simp [Signature.code, Varint.roundTrip]

theorem sig_size_env (c s : Nat) (rest : Bytes) :
    Signature.size (Varint.encode c ++ (Varint.encode s ++ rest)) = Except.ok s := by
  unfold Signature.size
  rw [sig_code_env]
  simp only [bind, Except.bind]
  rw [drop_encodePre]
  simp [Varint.roundTrip]

theorem sig_raw_env (c : Nat) (r tail : Bytes) :
    Signature.raw (Varint.encode c ++ (Varint.encode r.length ++ (r ++ tail))) =
      Except.ok r := by
  unfold Signature.raw
  rw [sig_code_env]
  simp only [bind, Except.bind]
  rw [sig_size_env]
  simp only [Except.bind]
  rw [← List.drop_drop, drop_encodePre, drop_encodePre, List.take_left]

theorem sig_alg_nonstandard (name : String) (r : Bytes) :
    Signature.algorithm (Signature.createNonStandard name r) = Except.ok name := by
  unfold Signature.algorithm Signature.createNonStandard
  rw [List.append_assoc, List.append_assoc]
  rw [sig_code_env]
  simp only [bind, Except.bind, Signature.NON_STANDARD, if_pos]
  rw [sig_size_env]
  simp only [Except.bind]
  have hsum : r.length + Varint.encodingLength 0xd000 + Varint.encodingLength r.length =
      Varint.encodingLength 0xd000 + (Varint.encodingLength r.length + r.length) := by omega
  rw [hsum, ← List.drop_drop, ← List.drop_drop, drop_encodePre, drop_encodePre]
  show Except.ok (UTF8.decode ((r ++ UTF8.encode name).drop r.length)) = Except.ok name
  rw [List.drop_left, UTF8.decodeEncode]

theorem mkEnvelope_assoc (c : Nat) (r : Bytes) :
    Signature.mkEnvelope c r = Varint.encode c ++ (Varint.encode r.length ++ (r ++ [])) := by
  simp [Signature.mkEnvelope]

/-- **C6.** For every recognised standard algorithm code `c` and raw byte
string `r`, `decode (encode (create c r))` is bit-identical to
`create c r`, with `code` accessor `c` and `raw` accessor `r`; and for
every name not mapping to a standard code (such as `"GOZ256"`),
`createNamed name r` yields a `NON_STANDARD` (0xD000) envelope whose
`algorithm` accessor returns `name`, whose `raw` accessor returns `r`, and
which `decode (encode ·)` reproduces bit-identically, trailing UTF-8 name
included. -/
theorem ucan_c6_varsig_roundtrip (c : Nat) (r : Bytes) (name : String)
    (hstd : c = 0xd0e7 ∨ c = 0xd0ea ∨ c = 0xd0eb ∨ c = 0xd0ed ∨ c = 0xd01200 ∨
      c = 0xd01201 ∨ c = 0xd01202 ∨ c = 0xd01205 ∨ c = 0xd191)
    (hns : Signature.nameCode name = Signature.NON_STANDARD) :
    (Signature.create c r = Except.ok (Signature.mkEnvelope c r) ∧
     Signature.decode (Signature.mkEnvelope c r) = Except.ok (Signature.mkEnvelope c r) ∧
     Signature.encode (Signature.mkEnvelope c r) = Except.ok (Signature.mkEnvelope c r) ∧
     Signature.code (Signature.mkEnvelope c r) = Except.ok c ∧
     Signature.raw (Signature.mkEnvelope c r) = Except.ok r) ∧
    (Signature.createNamed name r = Signature.createNonStandard name r ∧
     Signature.code (Signature.createNonStandard name r) = Except.ok 0xd000 ∧
     Signature.algorithm (Signature.createNonStandard name r) = Except.ok name ∧
     Signature.raw (Signature.createNonStandard name r) = Except.ok r ∧
     Signature.decode (Signature.createNonStandard name r) =
       Except.ok (Signature.createNonStandard name r)) := by
  have hcodeName : Signature.codeName c = Except.ok (match c with
      | 0xd0e7 => "ES256K" | 0xd0ea => "BLS12381G1" | 0xd0eb => "BLS12381G2"
      | 0xd0ed => "EdDSA" | 0xd01200 => "ES256" | 0xd01201 => "ES384"
      | 0xd01202 => "ES512" | 0xd01205 => "RS256" | _ => "EIP191") := by
    rcases hstd with rfl | rfl | rfl | rfl | rfl | rfl | rfl | rfl | rfl <;> rfl
  have hcode : Signature.code (Signature.mkEnvelope c r) = Except.ok c := by
    rw [mkEnvelope_assoc]
    exact sig_code_env c _
  have hraw : Signature.raw (Signature.mkEnvelope c r) = Except.ok r := by
    rw [mkEnvelope_assoc]
    have h := sig_raw_env c r []
    simpa using h
  have hnsne : c ≠ 0xd000 := by rcases hstd with rfl|rfl|rfl|rfl|rfl|rfl|rfl|rfl|rfl <;> decide
  have halg : Signature.algorithm (Signature.mkEnvelope c r) =
      Signature.codeName c := by
    unfold Signature.algorithm
    rw [hcode]
    simp only [bind, Except.bind, Signature.NON_STANDARD]
    rw [if_neg hnsne]
  have hdec : Signature.decode (Signature.mkEnvelope c r) =
      Except.ok (Signature.mkEnvelope c r) := by
    unfold Signature.decode
    rw [hcode]
    simp only [bind, Except.bind]
    rw [halg, hcodeName]
    simp only [Except.bind]
    rw [hraw]
  have hcodeNS : Signature.code (Signature.createNonStandard name r) = Except.ok 0xd000 := by
    unfold Signature.createNonStandard
    rw [List.append_assoc, List.append_assoc]
    exact sig_code_env 0xd000 _
  have hrawNS : Signature.raw (Signature.createNonStandard name r) = Except.ok r := by
    unfold Signature.createNonStandard
    rw [List.append_assoc, List.append_assoc]
    exact sig_raw_env 0xd000 r (UTF8.encode name)
  have halgNS := sig_alg_nonstandard name r
  refine ⟨⟨?_, hdec, hdec, hcode, hraw⟩,
    ⟨?_, hcodeNS, halgNS, hrawNS, ?_⟩⟩
  · unfold Signature.create
    rw [hcodeName]
    rfl
  · unfold Signature.createNamed
    rw [hns]
    simp
  · unfold Signature.decode
    rw [hcodeNS]
    simp only [bind, Except.bind]
    rw [halgNS]
    simp only [Except.bind]
    rw [hrawNS]

/-- Witness for C6 at `EdDSA = 0xd0ed` with raw `[9, 9]` and the exotic
name `"GOZ256"`. -/
theorem ucan_c6_witness :
    Signature.decode (Signature.mkEnvelope 0xd0ed [9, 9]) =
      Except.ok (Signature.mkEnvelope 0xd0ed [9, 9]) ∧
    Signature.algorithm (Signature.createNonStandard "GOZ256" [9, 9]) =
      Except.ok "GOZ256" ∧
    Signature.createNamed "GOZ256" [9, 9] = Signature.createNonStandard "GOZ256" [9, 9] := by
  have h := ucan_c6_varsig_roundtrip 0xd0ed [9, 9] "GOZ256" (by decide) (by rfl)
  exact ⟨h.1.2.1, h.2.2.2.1, h.2.1⟩

/-- **C7 (amended).** `Signature.decode` validates eagerly: the
destructuring `const { code, algorithm, raw } = signature` runs the
`algorithm` getter during decode, so an envelope whose algorithm code is
neither a recognised standard code nor `NON_STANDARD` raises the
`RangeError` at decode time (not lazily at a later `algorithm` access);
only non-byte-string inputs fail with a `TypeError` instead. -/
theorem ucan_c7_decode_validates_eagerly (c : Nat) (r : Bytes) (e : Err)
    (hbad : Signature.codeName c = Except.error e) (hns : c ≠ 0xd000) :
    Signature.decode (Signature.mkEnvelope c r) = Except.error e := by
  have hcode : Signature.code (Signature.mkEnvelope c r) = Except.ok c := by
    rw [mkEnvelope_assoc]
    exact sig_code_env c _
  unfold Signature.decode
  rw [hcode]
  simp only [bind, Except.bind]
  unfold Signature.algorithm
  rw [hcode]
  simp only [bind, Except.bind, Signature.NON_STANDARD]
  rw [if_neg hns, hbad]

/-- Witness for the amended C7: code `0xd0ee` is unknown, so decoding its
envelope fails with the `RangeError` during `decode` itself. -/
theorem ucan_c7_witness :
    Signature.decode (Signature.mkEnvelope 0xd0ee [1]) =
      Except.error (.range ("Unknown signature algorithm code 0x" ++ toString 0xd0ee)) :=
  ucan_c7_decode_validates_eagerly 0xd0ee [1]
    (.range ("Unknown signature algorithm code 0x" ++ toString 0xd0ee)) (by rfl) (by decide)

/-- **C7 (counterexample).** The claim as stated is false: `decode` does
not succeed "for every Uint8Array input regardless of the envelope's
algorithm code" — on the well-formed byte string envelope with the unknown
code `0xd0ee` it raises the `RangeError` during decode, not lazily. -/
theorem ucan_c7_counterexample :
    Signature.decode (Signature.mkEnvelope 0xd0ee []) =
      Except.error (.range "Unknown signature algorithm code 0x53486") := by rfl

/-- **C8 (amended).** Parsing a JWT whose header `alg` is an unrecognised
algorithm name such as `"ed25519"` does **not** fail: the current parser
validates `alg` only as a string (`readString`), and represents the
signature as a `NON_STANDARD` (0xD000) envelope whose `algorithm` accessor
returns the original name. -/
theorem ucan_c8_exotic_alg_accepted (alg : String) (r : Bytes)
    (hns : Signature.nameCode alg = Signature.NON_STANDARD) :
    Schema.readString (some (.str alg)) "alg" = Except.ok alg ∧
    Signature.createNamed alg r = Signature.createNonStandard alg r ∧
    Signature.code (Signature.createNamed alg r) = Except.ok 0xd000 ∧
    Signature.algorithm (Signature.createNamed alg r) = Except.ok alg := by
  have heq : Signature.createNamed alg r = Signature.createNonStandard alg r := by
    unfold Signature.createNamed
    rw [hns]
    simp
  refine ⟨rfl, heq, ?_, ?_⟩
  · rw [heq]
    unfold Signature.createNonStandard
    rw [List.append_assoc, List.append_assoc]
    exact sig_code_env 0xd000 _
  · rw [heq]
    exact sig_alg_nonstandard alg r

/-- Witness for the amended C8 at the name `"ed25519"`. -/
theorem ucan_c8_witness :
    Signature.createNamed "ed25519" [1, 2, 3] =
      Signature.createNonStandard "ed25519" [1, 2, 3] ∧
    Signature.algorithm (Signature.createNamed "ed25519" [1, 2, 3]) =
      Except.ok "ed25519" := by
  have h := ucan_c8_exotic_alg_accepted "ed25519" [1, 2, 3] (by rfl)
  exact ⟨h.2.1, h.2.2.2⟩

/-- **C8 (counterexample).** The claim as stated is false: parsing the
fixture JWT whose header `alg` is `"ed25519"` succeeds (no `ParseError`
matching "Header has invalid algorithm"), and produces a `NON_STANDARD`
signature carrying the name. -/
theorem ucan_c8_counterexample :
    Parser.parse jBadAlg = Except.ok modelBadAlg ∧
    Signature.code modelBadAlg.s = Except.ok 0xd000 ∧
    Signature.algorithm modelBadAlg.s = Except.ok "ed25519" :=
  ⟨by rfl, by rfl, by rfl⟩

/-- **C9 (amended).** `readAbility` accepts a string other than the literal
`"*"` exactly when `input.slice(1, -1)` contains a `/` — i.e. when some
`/` occurs at an interior position (at least one character before it and
one after it). `"/x"` and `"x/"` are therefore rejected, but abilities with
empty later segments such as `"a//"` are accepted (lowercased), contrary to
the claim's "at least one non-empty path segment on each side". -/
theorem ucan_c9_ability_segments (s : String) :
    (((s.data.drop 1).dropLast).contains '/' = true →
      Schema.readAbility (some (.str s)) = Except.ok (Schema.toLowerJs s)) ∧
    (((s.data.drop 1).dropLast).contains '/' = false → s ≠ "*" →
      Schema.readAbility (some (.str s)) =
        Except.error (.parse "Capability ability must have at least one path segment")) := by
  constructor
  · intro h
    unfold Schema.readAbility
    simp only []
    rw [if_pos h]
  · intro h hne
    unfold Schema.readAbility
    simp only []
    rw [if_neg (by rw [h]; simp), if_neg hne]

/-- Witness for the amended C9: `"a//"` (empty action segment) is accepted
and lowercased to itself; `"/x"` and `"x/"` are rejected. -/
theorem ucan_c9_witness :
    Schema.readAbility (some (.str "a//")) = Except.ok "a//" ∧
    Schema.readAbility (some (.str "/x")) =
      Except.error (.parse "Capability ability must have at least one path segment") ∧
    Schema.readAbility (some (.str "x/")) =
      Except.error (.parse "Capability ability must have at least one path segment") := by
  refine ⟨?_, ?_, ?_⟩
  · have h := (ucan_c9_ability_segments "a//").1 (by rfl)
    simpa using h
  · exact (ucan_c9_ability_segments "/x").2 (by rfl) (by decide)
  · exact (ucan_c9_ability_segments "x/").2 (by rfl) (by decide)

/-- **C9 (counterexample).** The claim as stated is false: the ability
`"a//"` has an empty action segment yet structural validation accepts it
(no `ParseError`), because `"a//".slice(1, -1) = "/"` contains a slash. -/
theorem ucan_c9_counterexample :
    Schema.readAbility (some (.str "a//")) = Except.ok "a//" := by rfl

/-! Lemmas for C10: object property lookup. -/

theorem val_get_cons_ne (l : List (String × Val)) (k k' : String) (v : Val)
    (h : k' ≠ k) :
    (Val.obj ((k, v) :: l)).get k' = (Val.obj l).get k' := by
  have hb : (k' == k) = false := beq_eq_false_iff_ne.mpr h
  simp [Val.get, List.lookup, hb]

theorem setPair_lookup_ne (l : List (String × Val)) (k k' : String) (x : Val)
    (h : k' ≠ k) :
    (Schema.setPair k x l).lookup k' = l.lookup k' := by
  induction l with
  | nil =>
    simp [Schema.setPair, List.lookup, beq_eq_false_iff_ne.mpr h]
  | cons kv r ih =>
    obtain ⟨k1, v1⟩ := kv
    simp only [Schema.setPair]
    by_cases hk : k1 = k
    · subst hk
      simp [List.lookup, beq_eq_false_iff_ne.mpr h]
    · rw [if_neg hk]
      simp only [List.lookup]
      cases hbe : k' == k1 <;> simp [ih]

/-- **C10.** The payload readers produce a model containing exactly the
recognised fields: an unrecognised top-level key in the incoming JWT
payload or decoded CBOR map is silently ignored (both the JWT-path
`readJWTPayload` and the CBOR-path `readPayload` / `readModel` depend only
on the recognised keys — the output `Payload`/`Model` structures carry
nothing else), while an unrecognised key inside a capability is preserved
verbatim by `asCapability`. -/
theorem ucan_c10_unknown_keys :
    (∀ (l : List (String × Val)) (k : String) (v : Val),
      k ∉ (["iss", "aud", "att", "prf", "exp", "nbf", "fct", "nnc"] : List String) →
      Schema.readJWTPayload (.obj ((k, v) :: l)) = Schema.readJWTPayload (.obj l) ∧
      Schema.readPayload (.obj ((k, v) :: l)) = Schema.readPayload (.obj l)) ∧
    (∀ (l : List (String × Val)) (k : String) (v : Val),
      k ∉ (["iss", "aud", "att", "prf", "exp", "nbf", "fct", "nnc", "v", "s"] : List String) →
      CborCodec.readModel (.obj ((k, v) :: l)) = CborCodec.readModel (.obj l)) ∧
    (∀ (l : List (String × Val)) (k : String) (c : Val),
      Schema.asCapability (.obj l) = Except.ok c → k ≠ "can" → k ≠ "with" →
      c.get k = (Val.obj l).get k) := by
  have hpay : ∀ (l : List (String × Val)) (k : String) (v : Val),
      k ∉ (["iss", "aud", "att", "prf", "exp", "nbf", "fct", "nnc"] : List String) →
      ∀ rp rpr, Schema.readPayloadWith rp rpr (.obj ((k, v) :: l)) =
        Schema.readPayloadWith rp rpr (.obj l) := by
    intro l k v h rp rpr
    simp only [List.mem_cons, List.mem_singleton, not_or] at h
    obtain ⟨h1, h2, h3, h4, h5, h6, h7, h8, -⟩ := h
    unfold Schema.readPayloadWith
    rw [val_get_cons_ne l k "iss" v (Ne.symm h1), val_get_cons_ne l k "aud" v (Ne.symm h2),
      val_get_cons_ne l k "att" v (Ne.symm h3), val_get_cons_ne l k "prf" v (Ne.symm h4),
      val_get_cons_ne l k "exp" v (Ne.symm h5), val_get_cons_ne l k "nbf" v (Ne.symm h6),
      val_get_cons_ne l k "fct" v (Ne.symm h7), val_get_cons_ne l k "nnc" v (Ne.symm h8)]
  refine ⟨?_, ?_, ?_⟩
  · intro l k v h
    exact ⟨hpay l k v h _ _, hpay l k v h _ _⟩
  · intro l k v h
    have h8 : k ∉ (["iss", "aud", "att", "prf", "exp", "nbf", "fct", "nnc"] : List String) := by
      simp only [List.mem_cons, List.mem_singleton, not_or] at h ⊢
      tauto
    have hv : k ≠ "v" := by
      simp only [List.mem_cons, List.mem_singleton, not_or] at h
      tauto
    have hs : k ≠ "s" := by
      simp only [List.mem_cons, List.mem_singleton, not_or] at h
      tauto
    unfold CborCodec.readModel
    unfold Schema.readPayload
    rw [hpay l k v h8 _ _, val_get_cons_ne l k "v" v (Ne.symm hv),
      val_get_cons_ne l k "s" v (Ne.symm hs)]
  · intro l k c h h1 h2
    unfold Schema.asCapability at h
    cases hA : Schema.readAbility ((Val.obj l).get "can") with
    | error e => rw [hA] at h; simp [bind, Except.bind] at h
    | ok a =>
      rw [hA] at h
      simp only [bind, Except.bind] at h
      cases hR : Schema.readResource ((Val.obj l).get "with") with
      | error e => rw [hR] at h; simp [Except.bind] at h
      | ok w =>
        rw [hR] at h
        simp only [Except.bind] at h
        cases h
        show (Val.obj
          (Schema.setPair "with" (.str w) (Schema.setPair "can" (.str a) l))).get k =
          (Val.obj l).get k
        simp only [Val.get]
        rw [setPair_lookup_ne _ _ _ _ h2, setPair_lookup_ne _ _ _ _ h1]

/-- Witness for C10 at a concrete payload object carrying the unknown keys
`"foo"` (top level, ignored) and `"nb"` (inside the capability, preserved). -/
theorem ucan_c10_witness :
    Schema.readJWTPayload (.obj
      (("foo", .num 1) ::
        [("iss", .str "did:x:a"), ("aud", .str "did:y:b"),
          ("att", .arr [.obj [("can", .str "x/y"), ("with", .str "my:z")]]),
          ("exp", .num 9)])) =
      Schema.readJWTPayload (.obj
        [("iss", .str "did:x:a"), ("aud", .str "did:y:b"),
          ("att", .arr [.obj [("can", .str "x/y"), ("with", .str "my:z")]]),
          ("exp", .num 9)]) ∧
    Schema.asCapability
        (.obj [("can", .str "x/y"), ("with", .str "my:z"), ("nb", .num 7)]) =
      Except.ok (.obj [("can", .str "x/y"), ("with", .str "my:z"), ("nb", .num 7)]) ∧
    (Val.obj [("can", .str "x/y"), ("with", .str "my:z"), ("nb", .num 7)]).get "nb" =
      some (.num 7) := by
  refine ⟨(ucan_c10_unknown_keys.1 _ "foo" (.num 1) (by decide)).1, by rfl, ?_⟩
  have h := ucan_c10_unknown_keys.2.2
    [("can", .str "x/y"), ("with", .str "my:z"), ("nb", .num 7)] "nb"
    (.obj [("can", .str "x/y"), ("with", .str "my:z"), ("nb", .num 7)])
    (by rfl) (by decide) (by decide)
  exact h ▸ rfl
